import Mathlib

/-!
Verification development for the editing core of the rune terminal text
editor (src/buffer.rs, src/editor.rs, src/keymap.rs).

The document text is modelled as a list of Unicode scalar values (codes,
as Nat), mirroring the ropey character rope used by the source.  The
grapheme-segmentation alphabet of this model is the set of scalars that
form singleton grapheme clusters (no combining marks), so that each code
is one grapheme; display widths are given by a fixed table chWidth
modelling the unicode-width crate (width 2 for U+1F604 used in proofs,
0 for control codes, 1 otherwise), and word characters by chWordy
modelling is_alphanumeric/underscore on ASCII.  Byte positions inside a
line are measured in grapheme units (the source only ever compares and
accumulates such positions, so this relabelling is behaviour-preserving
for single-scalar graphemes of one byte); byte positions of the raw
pending string, where the source really slices at arbitrary utf8 byte
offsets, are modelled exactly via utf8Len.  Functions of the source that
can panic (ropey out-of-range indexing, string slicing at a non-boundary
byte) are modelled with Option, none standing for the panic.
-/

set_option autoImplicit false

namespace Rune

/-- Display width table for single scalars, modelling
unicode_width::UnicodeWidthChar::width(ch).unwrap_or(0): control codes
(including tab and newline) get 0, U+1F604 (a double-width emoji) gets 2,
everything else in the model alphabet gets 1. -/
def chWidth (c : Nat) : Nat :=
  if c = 128516 then 2 else if c < 32 then 0 else 1

/-- Word-character test modelling seg.chars().any(is_alphanumeric or u{5f}),
restricted to the ASCII part of the alphabet. -/
def chWordy (c : Nat) : Bool :=
  (48 ≤ c && c ≤ 57) || (65 ≤ c && c ≤ 90) || (97 ≤ c && c ≤ 122) || c == 95

/-- Buffer::TABSTOP. -/
def TABSTOP : Nat := 4

/-- Buffer::gw_at: display width of grapheme g when it starts at column
col; a tab (code 9) advances to the next multiple of TABSTOP, anything
else has its table width, minimum 1. -/
def gwAt (col : Nat) (g : Nat) : Nat :=
  if g = 9 then ((col / TABSTOP) + 1) * TABSTOP - col else max (chWidth g) 1

/-- utf8 encoded length of a scalar (str::len of the grapheme). -/
def utf8Len (c : Nat) : Nat :=
  if c < 128 then 1 else if c < 2048 then 2 else if c < 65536 then 3 else 4

/-- Width of a grapheme list processed left to right starting at column
acc (the running accumulator used throughout buffer.rs). -/
def widthAcc (acc : Nat) (l : List Nat) : Nat :=
  l.foldl (fun a g => a + gwAt a g) acc

/-- Splitting a character list into lines on newline (code 10).  This is
ropey's line decomposition: a rope always has count(newline)+1 lines,
with the separators removed. -/
def splitNl : List Nat → List (List Nat)
  | [] => [[]]
  | c :: t =>
    let s := splitNl t
    if c = 10 then [] :: s else (c :: s.headD []) :: s.tail

/-- parts.join with a newline separator, the inverse of splitNl. -/
def joinNl : List (List Nat) → List Nat
  | [] => []
  | [l] => l
  | l :: r => l ++ 10 :: joinNl r

/-- Models ropey Rope::line_to_char: the character index at which line y
starts; for y = number of lines it is the total length (for larger y,
where ropey panics, this total function also returns the total length --
the panic-aware callers guard that case separately). -/
def lineStart : List Nat → Nat → Nat
  | _, 0 => 0
  | [], _ + 1 => 0
  | c :: t, y + 1 => if c = 10 then 1 + lineStart t y else 1 + lineStart t (y + 1)

/-- The text buffer: a rope of Unicode scalars (Buffer in buffer.rs). -/
structure Buffer where
  text : List Nat
  deriving DecidableEq, Repr

namespace Buffer

/-- Buffer::from_string: carriage returns (code 13) are stripped. -/
def fromString (s : List Nat) : Buffer :=
  ⟨s.filter (fun c => c ≠ 13)⟩

/-- Buffer::to_string (the rope rendered back to text). -/
def toText (b : Buffer) : List Nat := b.text

/-- Buffer::line_count = rope.len_lines(). -/
def lineCount (b : Buffer) : Nat := (splitNl b.text).length

/-- Buffer::line_string: the line's content without its newline;
out-of-range rows give the empty line. -/
def lineString (b : Buffer) (y : Nat) : List Nat := (splitNl b.text).getD y []

/-- Buffer::line_width. -/
def lineWidth (b : Buffer) (y : Nat) : Nat := widthAcc 0 (b.lineString y)

/-- The grapheme walk of Buffer::col_to_line_byte: position (in grapheme
units) of the grapheme whose span contains col, clamped to the line end. -/
def ctbGo (col : Nat) : List Nat → Nat → Nat → Nat
  | [], _, bi => bi
  | g :: t, acc, bi =>
    let w := gwAt acc g
    if col < acc + w then bi else ctbGo col t (acc + w) (bi + 1)

/-- Buffer::col_to_line_byte. -/
def colToLineByte (b : Buffer) (y col : Nat) : Nat :=
  min (ctbGo col (b.lineString y) 0 0) (b.lineString y).length

/-- Buffer::col_to_char_index (total version, correct for y up to
line_count; the panic-aware variant below guards larger y). -/
def colToCharIndex (b : Buffer) (y col : Nat) : Nat :=
  lineStart b.text y + min (b.colToLineByte y col) (b.lineString y).length

/-- Insertion of one scalar at a character index. -/
def insertAt (i : Nat) (c : Nat) (t : List Nat) : List Nat :=
  t.take i ++ c :: t.drop i

/-- Buffer::insert_char (total version). -/
def insertChar (b : Buffer) (col y ch : Nat) : Buffer :=
  ⟨insertAt (b.colToCharIndex y col) ch b.text⟩

/-- Buffer::insert_newline (total version). -/
def insertNewline (b : Buffer) (col y : Nat) : Buffer :=
  ⟨insertAt (b.colToCharIndex y col) 10 b.text⟩

/-- Buffer::char_index_at_col (total version). -/
def charIndexAtCol (b : Buffer) (y col : Nat) : Nat := b.colToCharIndex y col

/-- Panic-aware Buffer::insert_char: Rope::line_to_char panics when the
row exceeds len_lines, so the source panics exactly when y > line_count. -/
def insertCharQ (b : Buffer) (col y ch : Nat) : Option Buffer :=
  if y ≤ b.lineCount then some (b.insertChar col y ch) else none

/-- Panic-aware Buffer::insert_newline. -/
def insertNewlineQ (b : Buffer) (col y : Nat) : Option Buffer :=
  if y ≤ b.lineCount then some (b.insertNewline col y) else none

/-- Panic-aware Buffer::char_index_at_col. -/
def charIndexAtColQ (b : Buffer) (y col : Nat) : Option Nat :=
  if y ≤ b.lineCount then some (b.charIndexAtCol y col) else none

/-- Buffer::delete_line. -/
def deleteLine (b : Buffer) (y : Nat) : Buffer :=
  if y < b.lineCount then
    let s := lineStart b.text y
    let e := if y + 1 < b.lineCount then lineStart b.text (y + 1) else b.text.length
    ⟨b.text.take s ++ b.text.drop e⟩
  else b

/-- The grapheme walk of Buffer::delete_prev, returning the loop state
(prev_acc, prev_b, cur_b) at exit. -/
def dpGo (col : Nat) : List Nat → Nat → Nat → Nat → Nat → Nat × Nat × Nat
  | [], _, pa, pb, cb => (pa, pb, cb)
  | g :: t, acc, pa, pb, cb =>
    if col ≤ acc then (pa, pb, cb)
    else dpGo col t (acc + gwAt acc g) acc cb (cb + 1)

/-- Buffer::delete_prev: removes the grapheme ending at display column
col of line y and returns the buffer plus the new column. -/
def deletePrev (b : Buffer) (col y : Nat) : Buffer × Nat :=
  let row := b.lineString y
  if row = [] ∨ col = 0 then (b, 0)
  else
    let r := dpGo col row 0 0 0 0
    if r.2.1 < r.2.2 ∧ r.2.2 ≤ row.length then
      (⟨b.text.take (lineStart b.text y + r.2.1) ++
         b.text.drop (lineStart b.text y + r.2.2)⟩, r.1)
    else (b, col - 1)

/-- The grapheme walk of Buffer::delete_at: the grapheme span containing
column col, if any. -/
def daGo (col : Nat) : List Nat → Nat → Nat → Option (Nat × Nat)
  | [], _, _ => none
  | g :: t, acc, cb =>
    let w := gwAt acc g
    if acc ≤ col ∧ col < acc + w then some (cb, cb + 1)
    else daGo col t (acc + w) (cb + 1)

/-- Buffer::delete_at. -/
def deleteAt (b : Buffer) (col y : Nat) : Buffer :=
  let row := b.lineString y
  if row = [] then b
  else
    match daGo col row 0 0 with
    | some (s, e) =>
      ⟨b.text.take (lineStart b.text y + s) ++ b.text.drop (lineStart b.text y + e)⟩
    | none => b

/-- Buffer::merge_up: removes the newline before line y, returning the
display width of the previous line's original content. -/
def mergeUp (b : Buffer) (y : Nat) : Buffer × Nat :=
  if y = 0 ∨ b.lineCount ≤ y then (b, 0)
  else
    let newX := b.lineWidth (y - 1)
    let s := lineStart b.text y
    (if 0 < s then ⟨b.text.take (s - 1) ++ b.text.drop s⟩ else b, newX)

/-- The grapheme walk of Buffer::prev_col. -/
def pcGo (col : Nat) : List Nat → Nat → Nat → Nat
  | [], _, pa => pa
  | g :: t, acc, pa =>
    if col ≤ acc then pa else pcGo col t (acc + gwAt acc g) acc

/-- Buffer::prev_col. -/
def prevCol (b : Buffer) (col y : Nat) : Nat :=
  if col = 0 then 0 else pcGo col (b.lineString y) 0 0

/-- The grapheme walk of Buffer::next_col. -/
def ncGo (col len : Nat) : List Nat → Nat → Nat
  | [], _ => len
  | g :: t, acc =>
    let w := gwAt acc g
    if col ≤ acc then min (acc + w) len else ncGo col len t (acc + w)

/-- Buffer::next_col. -/
def nextCol (b : Buffer) (col y : Nat) : Nat :=
  let len := b.lineWidth y
  if len ≤ col then len else ncGo col len (b.lineString y) 0

/-- Word-boundary segmentation of a line, as (start position, segment)
pairs: maximal runs of word characters form one segment, every other
character is its own segment.  This models
UnicodeSegmentation::split_word_bound_indices on the model alphabet. -/
def wordSegs : Nat → List Nat → List (Nat × List Nat)
  | _, [] => []
  | i, c :: t =>
    if chWordy c then
      let run := t.takeWhile chWordy
      (i, c :: run) :: wordSegs (i + 1 + run.length) (t.drop run.length)
    else (i, [c]) :: wordSegs (i + 1) t
termination_by _ t => t.length
decreasing_by
  · simp only [List.length_cons, List.length_drop]
    omega
  · simp

/-- The scan of Buffer::next_word_start over the word segments. -/
def nwsGo (bi : Nat) : List (Nat × List Nat) → Option Nat → Option Nat
  | [], _ => none
  | (i, seg) :: r, curEnd =>
    let e := i + seg.length
    let isw := seg.any chWordy
    if curEnd = none ∧ i ≤ bi ∧ bi < e then nwsGo bi r (some e)
    else if bi ≤ i then
      match curEnd with
      | some ce => if ce ≤ i ∧ isw then some i else nwsGo bi r curEnd
      | none => if isw then some i else nwsGo bi r curEnd
    else nwsGo bi r curEnd

/-- The grapheme walk of Buffer::byte_to_col_in_line. -/
def btcGo (tb : Nat) : List Nat → Nat → Nat → Nat
  | [], acc, _ => acc
  | g :: t, acc, bpos =>
    if tb < bpos + 1 then acc else btcGo tb t (acc + gwAt acc g) (bpos + 1)

/-- Buffer::byte_to_col_in_line. -/
def byteToColInLine (b : Buffer) (y tb : Nat) : Nat :=
  btcGo tb (b.lineString y) 0 0

/-- Buffer::next_word_start. -/
def nextWordStart (b : Buffer) (col y : Nat) : Nat :=
  let row := b.lineString y
  let bi := b.colToLineByte y col
  let found := nwsGo bi (wordSegs 0 row) none
  b.byteToColInLine y (found.getD row.length)

/-- The scan of Buffer::prev_word_start: last word segment starting
before bi. -/
def pwsGo (bi : Nat) : List (Nat × List Nat) → Option Nat → Option Nat
  | [], prev => prev
  | (i, seg) :: r, prev =>
    if bi ≤ i then prev
    else pwsGo bi r (if seg.any chWordy then some i else prev)

/-- Buffer::prev_word_start. -/
def prevWordStart (b : Buffer) (col y : Nat) : Nat :=
  let row := b.lineString y
  let bi := b.colToLineByte y col
  let prev := pwsGo bi (wordSegs 0 row) none
  b.byteToColInLine y (prev.getD 0)

/-- The scan of Buffer::end_of_word. -/
def eowGo (bi : Nat) : List (Nat × List Nat) → Option Nat
  | [] => none
  | (i, seg) :: r =>
    let e := i + seg.length
    let isw := seg.any chWordy
    if isw ∧ i ≤ bi ∧ bi < e then some e
    else if bi ≤ i ∧ isw then some e
    else eowGo bi r

/-- Buffer::end_of_word. -/
def endOfWord (b : Buffer) (col y : Nat) : Nat :=
  let row := b.lineString y
  let bi := b.colToLineByte y col
  b.byteToColInLine y ((eowGo bi (wordSegs 0 row)).getD row.length)

/-- Buffer::remove_char_range: removes characters in the half-open range
only when it is well-formed and within bounds, otherwise leaves the
buffer untouched. -/
def removeCharRange (b : Buffer) (s e : Nat) : Buffer :=
  if s < e ∧ e ≤ b.text.length then ⟨b.text.take s ++ b.text.drop e⟩ else b

/-- Buffer::string_from_char_range (rope.slice rendered to text). -/
def stringFromCharRange (b : Buffer) (s e : Nat) : List Nat :=
  (b.text.take e).drop s

/-- Buffer::clear_line. -/
def clearLine (b : Buffer) (y : Nat) : Buffer :=
  if y < b.lineCount then
    let s := lineStart b.text y
    let n := (b.lineString y).length
    if 0 < n then ⟨b.text.take s ++ b.text.drop (s + n)⟩ else b
  else b

/-- Buffer::insert_str_at. -/
def insertStrAt (b : Buffer) (y col : Nat) (s : List Nat) : Buffer :=
  let i := if b.lineCount ≤ y then b.text.length else b.colToCharIndex y col
  ⟨b.text.take i ++ s ++ b.text.drop i⟩

/-- Buffer::insert_str_at_line_start. -/
def insertStrAtLineStart (b : Buffer) (y : Nat) (s : List Nat) : Buffer :=
  let i := if b.lineCount ≤ y then b.text.length else lineStart b.text y
  ⟨b.text.take i ++ s ++ b.text.drop i⟩

end Buffer

/-- keymap::Mode. -/
inductive Mode
  | normal | insert | visual | visualLine | visualBlock
  deriving DecidableEq, Repr

/-- keymap::Action. -/
inductive Action
  | moveLeft | moveRight | moveUp | moveDown | lineStart | lineEnd
  | gotoTop | gotoBottom | enterInsert | append | openBelow | openAbove
  | deleteCharUnder | deleteLine | operatorDelete | operatorChange | operatorYank
  | moveWordForward | moveWordBackward | moveEndWord | undo | redo
  | commandPrompt | enterVisual | enterVisualLine | enterVisualBlock
  | pasteAfter | pasteBefore
  deriving DecidableEq, Repr

/-- editor::ClipboardKind. -/
inductive ClipboardKind
  | charwise | linewise | blockwise
  deriving DecidableEq, Repr

/-- editor::NormalInputResult. -/
inductive NormalInputResult
  | rNone | rCommandPrompt
  deriving DecidableEq, Repr

/-- keymap::default_keymap, with key sequences as scalar lists. -/
def defaultKeymap : List (List Nat × Action) :=
  [([104], .moveLeft), ([106], .moveDown), ([107], .moveUp), ([108], .moveRight),
   ([48], .lineStart), ([36], .lineEnd), ([103, 103], .gotoTop), ([71], .gotoBottom),
   ([105], .enterInsert), ([118], .enterVisual), ([86], .enterVisualLine),
   ([97], .append), ([111], .openBelow), ([79], .openAbove), ([120], .deleteCharUnder),
   ([100, 100], .deleteLine), ([100], .operatorDelete), ([99], .operatorChange),
   ([121], .operatorYank), ([117], .undo), ([119], .moveWordForward),
   ([98], .moveWordBackward), ([101], .moveEndWord), ([58], .commandPrompt),
   ([112], .pasteAfter), ([80], .pasteBefore)]

/-- HashMap::get on the keymap (key sequences are unique). -/
def keymapGet (km : List (List Nat × Action)) (k : List Nat) : Option Action :=
  (km.find? (fun p => p.1 == k)).map (fun p => p.2)

/-- editor::EditorSnapshot. -/
structure EditorSnapshot where
  text : List Nat
  cx : Nat
  cy : Nat
  mode : Mode
  deriving DecidableEq, Repr

/-- editor::Editor.  The presentation-only fields (filename, status,
status_time, quit_times) and the wall-clock value inside pending_started
are untouched by the modelled behaviour, so pending_started is kept as
the boolean is_some view of the Option Instant. -/
structure Editor where
  buf : Buffer
  dirty : Bool
  cx : Nat
  cy : Nat
  mode : Mode
  keymap : List (List Nat × Action)
  pending : List Nat
  pendingStarted : Bool
  opPending : Option (Action × Nat)
  clipboard : List Nat
  clipboardKind : ClipboardKind
  visualAnchor : Option (Nat × Nat)
  undoStack : List EditorSnapshot
  redoStack : List EditorSnapshot
  undoGroupActive : Bool
  countGroupActive : Bool
  deriving DecidableEq, Repr

namespace Editor

/-- EditorSnapshot::from_editor. -/
def snapOf (e : Editor) : EditorSnapshot := ⟨e.buf.toText, e.cx, e.cy, e.mode⟩

/-- Editor::on_edit_start. -/
def onEditStart (e : Editor) : Editor :=
  if e.countGroupActive then e
  else if e.mode = Mode.insert then
    if e.undoGroupActive then e
    else { e with undoStack := snapOf e :: e.undoStack, redoStack := [],
                  undoGroupActive := true }
  else
    { e with undoStack := snapOf e :: e.undoStack, redoStack := [],
             undoGroupActive := false }

/-- Editor::end_undo_group. -/
def endUndoGroup (e : Editor) : Editor := { e with undoGroupActive := false }

/-- Editor::clamp_cursor. -/
def clampCursor (e : Editor) : Editor :=
  let maxY := e.buf.lineCount - 1
  let cy2 := min e.cy maxY
  { e with cy := cy2, cx := min e.cx (e.buf.lineWidth cy2) }

/-- Editor::undo: mode is kept, not restored from the snapshot. -/
def undo (e : Editor) : Editor × Bool :=
  match e.undoStack with
  | [] => (e, false)
  | prev :: rest =>
    (clampCursor
      { e with redoStack := snapOf e :: e.redoStack,
               buf := Buffer.fromString prev.text,
               cx := prev.cx, cy := prev.cy,
               undoStack := rest, undoGroupActive := false }, true)

/-- Editor::redo: mode is kept, not restored from the snapshot. -/
def redo (e : Editor) : Editor × Bool :=
  match e.redoStack with
  | [] => (e, false)
  | nxt :: rest =>
    (clampCursor
      { e with undoStack := snapOf e :: e.undoStack,
               buf := Buffer.fromString nxt.text,
               cx := nxt.cx, cy := nxt.cy,
               redoStack := rest, undoGroupActive := false }, true)

/-- Editor::new with the built-in keymap and no configuration file. -/
def initEditor : Editor :=
  { buf := ⟨[]⟩, dirty := false, cx := 0, cy := 0, mode := Mode.normal,
    keymap := defaultKeymap, pending := [], pendingStarted := false,
    opPending := none, clipboard := [], clipboardKind := ClipboardKind.charwise,
    visualAnchor := none, undoStack := [], redoStack := [],
    undoGroupActive := false, countGroupActive := false }

/-- Editor::insert_char: the cursor advances by the scalar's display
width (unwrap_or(0).max(1)). -/
def insertChar (ch : Nat) (e : Editor) : Editor :=
  let e1 := onEditStart e
  { e1 with buf := e1.buf.insertChar e1.cx e1.cy ch,
            cx := e1.cx + max (chWidth ch) 1, dirty := true }

/-- Editor::insert_newline. -/
def insertNewline (e : Editor) : Editor :=
  let e1 := onEditStart e
  { e1 with buf := e1.buf.insertNewline e1.cx e1.cy,
            cy := e1.cy + 1, cx := 0, dirty := true }

/-- Editor::delete_char. -/
def deleteChar (e : Editor) : Editor :=
  let e1 := onEditStart e
  if 0 < e1.cx then
    let r := e1.buf.deletePrev e1.cx e1.cy
    { e1 with buf := r.1, cx := r.2, dirty := true }
  else if 0 < e1.cy then
    let r := e1.buf.mergeUp e1.cy
    { e1 with buf := r.1, cy := e1.cy - 1, cx := r.2, dirty := true }
  else e1

/-- Editor::toggle_visual_mode. -/
def toggleVisual (target : Mode) (e : Editor) : Editor :=
  match e.mode with
  | .visual | .visualLine | .visualBlock =>
    if e.mode = target then { e with mode := Mode.normal, visualAnchor := none }
    else
      { e with mode := target,
               visualAnchor :=
                 if e.visualAnchor = none then some (e.cx, e.cy) else e.visualAnchor }
  | _ => { e with mode := target, visualAnchor := some (e.cx, e.cy) }

/-- Editor::goto_line (1-based, clamped). -/
def gotoLine (n1 : Nat) (e : Editor) : Editor :=
  if e.buf.lineCount = 0 then { e with cy := 0, cx := 0 }
  else clampCursor { e with cy := min n1 e.buf.lineCount - 1, cx := 0 }

/-- Editor::extract_range, pairs are (row, column). -/
def extractRange (b : Buffer) (s f : Nat × Nat) (inclusive : Bool) : List Nat :=
  let endCol := if inclusive then b.nextCol f.2 f.1 else f.2
  b.stringFromCharRange (b.charIndexAtCol s.1 s.2) (b.charIndexAtCol f.1 endCol)

/-- Editor::delete_range. -/
def deleteRange (b : Buffer) (s f : Nat × Nat) (inclusive : Bool) : Buffer :=
  let endCol := if inclusive then b.nextCol f.2 f.1 else f.2
  b.removeCharRange (b.charIndexAtCol s.1 s.2) (b.charIndexAtCol f.1 endCol)

/-- Editor::visual_bounds_char: ((start row, start col), (end row, end col)),
none when the ordered selection is empty. -/
def visualBoundsChar (e : Editor) : Option ((Nat × Nat) × (Nat × Nat)) :=
  match e.visualAnchor with
  | none => none
  | some (ax, ay) =>
    let o :=
      if ay < e.cy ∨ (e.cy = ay ∧ ax ≤ e.cx) then ((ay, ax), (e.cy, e.cx))
      else ((e.cy, e.cx), (ay, ax))
    if o.1.1 < o.2.1 ∨ (o.1.1 = o.2.1 ∧ o.1.2 < o.2.2) then some o else none

/-- Editor::visual_bounds_line. -/
def visualBoundsLine (e : Editor) : Option (Nat × Nat) :=
  match e.visualAnchor with
  | none => none
  | some (_, ay) => some (if ay ≤ e.cy then (ay, e.cy) else (e.cy, ay))

/-- Editor::visual_bounds_block: (top, bottom, left, right). -/
def visualBoundsBlock (e : Editor) : Option (Nat × Nat × Nat × Nat) :=
  match e.visualAnchor with
  | none => none
  | some (ax, ay) =>
    some (if ay ≤ e.cy then ay else e.cy, if ay ≤ e.cy then e.cy else ay,
          if ax ≤ e.cx then ax else e.cx, if ax ≤ e.cx then e.cx else ax)

/-- Editor::extract_block. -/
def extractBlock (b : Buffer) (sy ey left right : Nat) : List Nat :=
  joinNl ((List.range (ey + 1 - sy)).map (fun i =>
    let y := sy + i
    let lw := b.lineWidth y
    extractRange b (y, min left lw) (y, min right lw) false))

/-- Editor::delete_block (bottom-up, per-row clamped). -/
def deleteBlock (b : Buffer) (sy ey left right : Nat) : Buffer :=
  ((List.range (ey + 1 - sy)).reverse).foldl (fun bb i =>
    let y := sy + i
    let lw := bb.lineWidth y
    deleteRange bb (y, min left lw) (y, min right lw) false) b

/-- Editor::visual_delete: ends in Normal mode with the anchor cleared. -/
def visualDelete (e : Editor) : Editor :=
  let e1 :=
    match e.mode with
    | .visual =>
      match visualBoundsChar e with
      | some (s, f) =>
        let e2 := onEditStart e
        let kind :=
          if s.1 < f.1 ∧ s.2 = 0 ∧ e2.buf.lineWidth f.1 ≤ f.2 then ClipboardKind.linewise
          else ClipboardKind.charwise
        { e2 with clipboard := extractRange e2.buf s f false, clipboardKind := kind,
                  buf := deleteRange e2.buf s f false,
                  cx := s.2, cy := s.1, dirty := true }
      | none => e
    | .visualLine =>
      match visualBoundsLine e with
      | some (sy, ey) =>
        let e2 := onEditStart e
        let parts := (List.range (ey + 1 - sy)).map (fun i => e2.buf.lineString (sy + i))
        let bb := (List.range (ey + 1 - sy)).foldl (fun (b : Buffer) _ => b.deleteLine sy) e2.buf
        { e2 with clipboard := joinNl parts, clipboardKind := ClipboardKind.linewise,
                  buf := bb, cy := sy, cx := 0, dirty := true }
      | none => e
    | .visualBlock =>
      match visualBoundsBlock e with
      | some (sy, ey, l, r) =>
        let e2 := onEditStart e
        { e2 with clipboard := extractBlock e2.buf sy ey l r,
                  clipboardKind := ClipboardKind.blockwise,
                  buf := deleteBlock e2.buf sy ey l r,
                  cy := sy, cx := l, dirty := true }
      | none => e
    | _ => e
  { e1 with mode := Mode.normal, visualAnchor := none }

/-- Editor::visual_yank: ends in Normal mode with the anchor cleared. -/
def visualYank (e : Editor) : Editor :=
  let e1 :=
    match e.mode with
    | .visual =>
      match visualBoundsChar e with
      | some (s, f) =>
        let kind :=
          if s.1 < f.1 ∧ s.2 = 0 ∧ e.buf.lineWidth f.1 ≤ f.2 then ClipboardKind.linewise
          else ClipboardKind.charwise
        { e with clipboard := extractRange e.buf s f false, clipboardKind := kind }
      | none => e
    | .visualLine =>
      match visualBoundsLine e with
      | some (sy, ey) =>
        let parts := (List.range (ey + 1 - sy)).map (fun i => e.buf.lineString (sy + i))
        { e with clipboard := joinNl parts, clipboardKind := ClipboardKind.linewise }
      | none => e
    | .visualBlock =>
      match visualBoundsBlock e with
      | some (sy, ey, l, r) =>
        { e with clipboard := extractBlock e.buf sy ey l r,
                 clipboardKind := ClipboardKind.blockwise }
      | none => e
    | _ => e
  { e1 with mode := Mode.normal, visualAnchor := none }

/-- Editor::visual_change: ends in Insert mode with the anchor cleared. -/
def visualChange (e : Editor) : Editor :=
  let e1 :=
    match e.mode with
    | .visual =>
      match visualBoundsChar e with
      | some (s, f) =>
        let e2 := onEditStart e
        let kind :=
          if s.1 < f.1 ∧ s.2 = 0 ∧ e2.buf.lineWidth f.1 ≤ f.2 then ClipboardKind.linewise
          else ClipboardKind.charwise
        { e2 with clipboard := extractRange e2.buf s f false, clipboardKind := kind,
                  buf := deleteRange e2.buf s f false,
                  cx := s.2, cy := s.1, dirty := true, mode := Mode.insert }
      | none => { e with mode := Mode.insert }
    | .visualLine =>
      match visualBoundsLine e with
      | some (sy, ey) =>
        let e2 := onEditStart e
        let parts := (List.range (ey + 1 - sy)).map (fun i => e2.buf.lineString (sy + i))
        let bb := (List.range (ey + 1 - sy)).foldl (fun (b : Buffer) _ => b.deleteLine sy) e2.buf
        { e2 with clipboard := joinNl parts, clipboardKind := ClipboardKind.linewise,
                  buf := bb, cy := sy, cx := 0, dirty := true, mode := Mode.insert }
      | none => { e with mode := Mode.insert }
    | .visualBlock =>
      match visualBoundsBlock e with
      | some (sy, ey, l, r) =>
        let e2 := onEditStart e
        { e2 with clipboard := extractBlock e2.buf sy ey l r,
                  clipboardKind := ClipboardKind.blockwise,
                  buf := deleteBlock e2.buf sy ey l r,
                  cy := sy, cx := l, dirty := true, mode := Mode.insert }
      | none => { e with mode := Mode.insert }
    | _ => { e with mode := Mode.insert }
  { e1 with visualAnchor := none }

/-- Editor::delete_n_lines. -/
def deleteNLines (count : Nat) (e : Editor) : Editor :=
  if e.buf.lineCount = 0 then e
  else
    let e1 := onEditStart e
    let sy := e1.cy
    let ey := min (sy + count - 1) (e1.buf.lineCount - 1)
    let parts := (List.range (ey + 1 - sy)).map (fun i => e1.buf.lineString (sy + i))
    let bb := (List.range (ey + 1 - sy)).foldl (fun (b : Buffer) _ => b.deleteLine sy) e1.buf
    let cy2 := if bb.lineCount ≤ e1.cy then bb.lineCount - 1 else e1.cy
    { e1 with clipboard := joinNl parts, clipboardKind := ClipboardKind.linewise,
              buf := bb, cy := cy2, cx := 0, dirty := true }

/-- Editor::paste_block_at: writes clipboard rows into successive buffer
rows, stopping when rows run out. -/
def pasteBlockAt (startLine col : Nat) (e : Editor) : Editor :=
  let st := (splitNl e.clipboard).foldl
    (fun (p : Buffer × Nat) seg =>
      if p.1.lineCount ≤ p.2 then p else (p.1.insertStrAt p.2 col seg, p.2 + 1))
    (e.buf, startLine)
  { e with buf := st.1, cy := startLine, cx := col }

/-- Editor::paste_after. -/
def pasteAfter (e : Editor) : Editor :=
  if e.clipboard = [] then e
  else
    let e1 := onEditStart e
    if e1.clipboardKind = ClipboardKind.linewise then
      let endCol := e1.buf.lineWidth e1.cy
      let clean :=
        if e1.clipboard.getLast? = some 10 then e1.clipboard.dropLast else e1.clipboard
      { e1 with buf := e1.buf.insertStrAt e1.cy endCol (10 :: clean),
                cy := e1.cy + 1, cx := 0, dirty := true }
    else if e1.clipboardKind = ClipboardKind.charwise then
      { e1 with buf := e1.buf.insertStrAt e1.cy e1.cx e1.clipboard, dirty := true }
    else
      let e2 := pasteBlockAt (e1.cy + 1) e1.cx e1
      { e2 with dirty := true }

/-- Editor::paste_before. -/
def pasteBefore (e : Editor) : Editor :=
  if e.clipboard = [] then e
  else
    let e1 := onEditStart e
    if e1.clipboardKind = ClipboardKind.linewise then
      { e1 with buf := e1.buf.insertStrAtLineStart e1.cy (e1.clipboard ++ [10]),
                cx := 0, dirty := true }
    else if e1.clipboardKind = ClipboardKind.charwise then
      { e1 with buf := e1.buf.insertStrAt e1.cy e1.cx e1.clipboard, dirty := true }
    else
      let e2 := pasteBlockAt e1.cy e1.cx e1
      { e2 with dirty := true }

/-- The operator part of Editor::apply_range_or_move, for a pending
operator opk acting between the cursor and the motion target. -/
def rangeOp (opk : Action) (target : Nat × Nat) (inclusive : Bool) (e : Editor) : Editor :=
  let e1 := if opk = Action.operatorDelete ∨ opk = Action.operatorChange then onEditStart e else e
  let o :=
    if e1.cy < target.1 ∨ (target.1 = e1.cy ∧ e1.cx ≤ target.2) then
      ((e1.cy, e1.cx), (target.1, target.2))
    else ((target.1, target.2), (e1.cy, e1.cx))
  let s := o.1
  let f := o.2
  if s.1 < f.1 ∨ (s.1 = f.1 ∧ s.2 < f.2) then
    if opk = Action.operatorDelete ∨ opk = Action.operatorChange then
      let kind :=
        if s.1 < f.1 ∧ s.2 = 0 ∧ e1.buf.lineWidth f.1 ≤ f.2 then ClipboardKind.linewise
        else ClipboardKind.charwise
      let e2 := { e1 with clipboard := extractRange e1.buf s f inclusive,
                          clipboardKind := kind,
                          buf := deleteRange e1.buf s f inclusive,
                          cx := s.2, cy := s.1, dirty := true }
      if opk = Action.operatorChange then { e2 with mode := Mode.insert } else e2
    else if opk = Action.operatorYank then
      let kind :=
        if s.1 < f.1 ∧ s.2 = 0 ∧ e1.buf.lineWidth f.1 ≤ f.2 then ClipboardKind.linewise
        else ClipboardKind.charwise
      { e1 with clipboard := extractRange e1.buf s f inclusive, clipboardKind := kind }
    else e1
  else e1

/-- Editor::apply_range_or_move: with no operator argument the pending
operator is taken (and so cleared even when no range applies). -/
def applyRangeOrMove (target : Nat × Nat) (inclusive : Bool) (op : Option (Action × Nat))
    (e : Editor) : Editor :=
  match op with
  | some p => rangeOp p.1 target inclusive e
  | none =>
    match e.opPending with
    | some p => rangeOp p.1 target inclusive { e with opPending := none }
    | none => { e with cx := target.2, cy := target.1 }

/-- Start position of the first word segment, if any. -/
def firstWordyStart (segs : List (Nat × List Nat)) : Option Nat :=
  (segs.find? (fun p => p.2.any chWordy)).map (fun p => p.1)

/-- Start position of the last word segment, if any. -/
def lastWordyStart (segs : List (Nat × List Nat)) : Option Nat :=
  ((segs.filter (fun p => p.2.any chWordy)).getLast?).map (fun p => p.1)

/-- End position of the first word segment, if any. -/
def firstWordyEnd (segs : List (Nat × List Nat)) : Option Nat :=
  (segs.find? (fun p => p.2.any chWordy)).map (fun p => p.1 + p.2.length)

/-- The downward scan of Editor::find_next_word_start_from, fuelled by
the number of remaining lines. -/
def fnwsGo (b : Buffer) : Nat → Nat → Option (Nat × Nat)
  | 0, _ => none
  | f + 1, y =>
    if y < b.lineCount then
      match firstWordyStart (Buffer.wordSegs 0 (b.lineString y)) with
      | some i => some (y, b.byteToColInLine y i)
      | none => fnwsGo b f (y + 1)
    else none

/-- Editor::find_next_word_start_from. -/
def findNextWordStartFrom (b : Buffer) (y : Nat) : Option (Nat × Nat) :=
  fnwsGo b (b.lineCount - y) y

/-- Editor::find_prev_word_start_from. -/
def findPrevWordStartFrom (b : Buffer) : Nat → Option (Nat × Nat)
  | 0 =>
    if 0 < b.lineCount then
      match lastWordyStart (Buffer.wordSegs 0 (b.lineString 0)) with
      | some i => some (0, b.byteToColInLine 0 i)
      | none => none
    else none
  | y + 1 =>
    if y + 1 < b.lineCount then
      match lastWordyStart (Buffer.wordSegs 0 (b.lineString (y + 1))) with
      | some i => some (y + 1, b.byteToColInLine (y + 1) i)
      | none => findPrevWordStartFrom b y
    else findPrevWordStartFrom b y

/-- The downward scan of Editor::find_next_word_end_from. -/
def fnweGo (b : Buffer) : Nat → Nat → Option (Nat × Nat)
  | 0, _ => none
  | f + 1, y =>
    if y < b.lineCount then
      match firstWordyEnd (Buffer.wordSegs 0 (b.lineString y)) with
      | some eb => some (y, b.byteToColInLine y eb)
      | none => fnweGo b f (y + 1)
    else none

/-- Editor::find_next_word_end_from. -/
def findNextWordEndFrom (b : Buffer) (y : Nat) : Option (Nat × Nat) :=
  fnweGo b (b.lineCount - y) y

/-- The per-repetition stepping loop of the word-forward motion in
Editor::apply_motion (k is the number of repetitions still to do). -/
def wfGo (b : Buffer) (op : Option (Action × Nat)) : Nat → Nat → Nat → Nat × Nat
  | 0, y, c => (y, c)
  | k + 1, y, c =>
    let curNext := b.nextWordStart c y
    let step :=
      if curNext = c then
        if b.lineCount ≤ y + 1 then none
        else
          match op with
          | some (opk, _) =>
            if opk = Action.operatorDelete ∨ opk = Action.operatorChange then
              if k = 0 then some (y + 1, 0)
              else findNextWordStartFrom b (y + 1)
            else findNextWordStartFrom b (y + 1)
          | none => findNextWordStartFrom b (y + 1)
      else some (y, curNext)
    match step with
    | some (ny, nx) => wfGo b op k ny nx
    | none => (y, c)

/-- The stepping loop of the word-backward motion in Editor::apply_motion. -/
def wbGo (b : Buffer) : Nat → Nat → Nat → Nat × Nat
  | 0, y, c => (y, c)
  | k + 1, y, c =>
    let curPrev := b.prevWordStart c y
    let step := if curPrev = c then findPrevWordStartFrom b (y - 1) else some (y, curPrev)
    match step with
    | some (ny, nx) => wbGo b k ny nx
    | none => (y, c)

/-- The stepping loop of the end-of-word motion in Editor::apply_motion. -/
def weGo (b : Buffer) : Nat → Nat → Nat → Nat × Nat
  | 0, y, c => (y, c)
  | k + 1, y, c =>
    let curEnd := b.endOfWord c y
    let step := if curEnd = c then findNextWordEndFrom b (y + 1) else some (y, curEnd)
    match step with
    | some (ny, nx) => weGo b k ny nx
    | none => (y, c)

/-- Editor::is_editing_action. -/
def isEditingAction : Action → Bool
  | .deleteLine | .deleteCharUnder | .openAbove | .openBelow => true
  | _ => false

/-- The clear-whole-lines loop body of the cc (change-change) resolution
in Editor::process_normal_char. -/
def changeStep (e : Editor) : Editor :=
  let e1 := { e with buf := e.buf.clearLine e.cy, cx := 0, dirty := true }
  if e1.cy + 1 < e1.buf.lineCount then { e1 with cy := e1.cy + 1 } else e1

/-- Iterating a state transformer. -/
def iterN {α : Type} (f : α → α) : Nat → α → α
  | 0, a => a
  | n + 1, a => iterN f n (f a)

/-- The cc (change whole lines) resolution in Editor::process_normal_char. -/
def changeLines (effective : Nat) (e : Editor) : Editor :=
  let e1 := iterN changeStep (max effective 1) e
  { e1 with mode := Mode.insert, cy := e1.cy - (effective - 1) }

/-- The yy (yank whole lines) resolution in Editor::process_normal_char
(note: the source sets only the clipboard text, not its kind). -/
def yankLines (effective : Nat) (e : Editor) : Editor :=
  let fin := min (e.cy + effective) e.buf.lineCount
  let parts := (List.range (fin - e.cy)).map (fun i => e.buf.lineString (e.cy + i))
  { e with clipboard := joinNl parts }

/-- Measure rank used only to justify termination of the mutual action
cluster: the word motions are the only actions whose handler re-enters
apply_motion. -/
def mrk (a : Action) : Nat :=
  if a = Action.moveWordForward ∨ a = Action.moveWordBackward ∨ a = Action.moveEndWord then 1
  else 0

mutual

/-- Editor::apply_action_count. -/
def applyActionCount (a : Action) (count : Nat) (e : Editor) : Editor :=
  let n := max count 1
  if a = Action.deleteLine ∧ 1 < n then deleteNLines n e
  else
    let e1 :=
      if 1 < n ∧ ¬e.countGroupActive ∧ isEditingAction a then
        { e with undoStack := snapOf e :: e.undoStack, redoStack := [],
                 countGroupActive := true }
      else e
    let e2 := applyN a n e1
    { e2 with countGroupActive := false }
termination_by 60 * mrk a + 20 + max count 1
decreasing_by all_goals simp [mrk, *]; all_goals omega

/-- The for-loop of Editor::apply_action_count. -/
def applyN (a : Action) (n : Nat) (e : Editor) : Editor :=
  match n with
  | 0 => e
  | m + 1 => applyN a m (applyAction a e)
termination_by 60 * mrk a + 19 + n
decreasing_by all_goals simp [mrk, *]; all_goals omega

/-- Editor::apply_action (every branch is followed by clamp_cursor). -/
def applyAction (a : Action) (e : Editor) : Editor :=
  clampCursor (applyActionCore a e)
termination_by 60 * mrk a + 18
decreasing_by all_goals simp [mrk, *]; all_goals omega

/-- The match of Editor::apply_action. -/
def applyActionCore (a : Action) (e : Editor) : Editor :=
  match a with
  | .moveLeft =>
    if 0 < e.cx then { e with cx := e.buf.prevCol e.cx e.cy }
    else if 0 < e.cy then { e with cy := e.cy - 1, cx := e.buf.lineWidth (e.cy - 1) }
    else e
  | .moveRight =>
    if e.cx < e.buf.lineWidth e.cy then { e with cx := e.buf.nextCol e.cx e.cy }
    else if e.cy + 1 < e.buf.lineCount then { e with cy := e.cy + 1, cx := 0 }
    else e
  | .moveUp => if 0 < e.cy then { e with cy := e.cy - 1 } else e
  | .moveDown => if e.cy + 1 < e.buf.lineCount then { e with cy := e.cy + 1 } else e
  | .lineStart => { e with cx := 0 }
  | .lineEnd => { e with cx := e.buf.lineWidth e.cy }
  | .gotoTop => { e with cy := 0, cx := 0 }
  | .gotoBottom =>
    if 0 < e.buf.lineCount then
      { e with cy := e.buf.lineCount - 1, cx := e.buf.lineWidth (e.buf.lineCount - 1) }
    else e
  | .enterInsert => { e with mode := Mode.insert }
  | .enterVisual => toggleVisual Mode.visual e
  | .enterVisualLine => toggleVisual Mode.visualLine e
  | .enterVisualBlock => toggleVisual Mode.visualBlock e
  | .append =>
    let e1 := if e.cx < e.buf.lineWidth e.cy then { e with cx := e.buf.nextCol e.cx e.cy } else e
    { e1 with mode := Mode.insert }
  | .openBelow =>
    let e1 := onEditStart e
    { e1 with buf := e1.buf.insertNewline (e1.buf.lineWidth e1.cy) e1.cy,
              cy := e1.cy + 1, cx := 0, dirty := true, mode := Mode.insert }
  | .openAbove =>
    let e1 := onEditStart e
    { e1 with buf := e1.buf.insertNewline 0 e1.cy, cx := 0, dirty := true,
              mode := Mode.insert }
  | .deleteCharUnder =>
    let e1 := onEditStart e
    { e1 with buf := e1.buf.deleteAt e1.cx e1.cy, dirty := true }
  | .deleteLine =>
    let e1 := onEditStart e
    if 0 < e1.buf.lineCount then
      let clip := e1.buf.lineString e1.cy
      let bb := e1.buf.deleteLine e1.cy
      let cy2 := if bb.lineCount ≤ e1.cy then bb.lineCount - 1 else e1.cy
      { e1 with clipboard := clip, clipboardKind := ClipboardKind.linewise,
                buf := bb, cy := cy2, cx := 0, dirty := true }
    else e1
  | .commandPrompt => e
  | .operatorDelete => { e with opPending := some (Action.operatorDelete, 1) }
  | .operatorChange => { e with opPending := some (Action.operatorChange, 1) }
  | .operatorYank => { e with opPending := some (Action.operatorYank, 1) }
  | .undo => (undo e).1
  | .redo => (redo e).1
  | .moveWordForward => applyMotion Action.moveWordForward 1 none e
  | .moveWordBackward => applyMotion Action.moveWordBackward 1 none e
  | .moveEndWord => applyMotion Action.moveEndWord 1 none e
  | .pasteAfter => pasteAfter e
  | .pasteBefore => pasteBefore e
termination_by 60 * mrk a + 17
decreasing_by all_goals simp [mrk, *]; all_goals omega

/-- Editor::apply_motion. -/
def applyMotion (act : Action) (count : Nat) (op : Option (Action × Nat)) (e : Editor) : Editor :=
  let n := max count 1
  let grouped :=
    decide (1 < n) &&
    (match op with
     | some (opk, _) => decide (opk = Action.operatorDelete ∨ opk = Action.operatorChange)
     | none => false) &&
    !e.countGroupActive
  let e1 :=
    if grouped then
      { e with undoStack := snapOf e :: e.undoStack, redoStack := [],
               countGroupActive := true }
    else e
  let e2 :=
    if hw : act = Action.moveWordForward then
      applyRangeOrMove (wfGo e1.buf op n e1.cy e1.cx) false op e1
    else if hb : act = Action.moveWordBackward then
      applyRangeOrMove (wbGo e1.buf n e1.cy e1.cx) false op e1
    else if he : act = Action.moveEndWord then
      applyRangeOrMove (weGo e1.buf n e1.cy e1.cx) true op e1
    else if act = Action.lineStart then
      applyRangeOrMove (e1.cy, 0) false op e1
    else if act = Action.lineEnd then
      applyRangeOrMove (e1.cy, e1.buf.lineWidth e1.cy) true op e1
    else if op = none then applyActionCount act n e1
    else e1
  if grouped then { e2 with countGroupActive := false } else e2
termination_by 10 * mrk act + 30 + max count 1
decreasing_by all_goals simp [mrk, *]; all_goals omega

end

/-- Editor::parse_count_prefix: an optional leading count together with
the number of consumed digit characters. -/
def parseCount (s : List Nat) : Option Nat × Nat :=
  match s with
  | [] => (none, 0)
  | c :: t =>
    if 49 ≤ c ∧ c ≤ 57 then
      let ds := t.takeWhile (fun d => 48 ≤ d && d ≤ 57)
      (some ((c :: ds).foldl (fun a d => 10 * a + (d - 48)) 0), 1 + ds.length)
    else (none, 0)

/-- utf8 byte length of a string. -/
def byteLen (s : List Nat) : Nat := (s.map utf8Len).sum

/-- Slicing a string at a byte position from the left: none when the
position is not a character boundary (where the source would panic). -/
def strTakeB : List Nat → Nat → Option (List Nat)
  | _, 0 => some []
  | [], _ + 1 => none
  | c :: t, i + 1 =>
    if utf8Len c ≤ i + 1 then (strTakeB t (i + 1 - utf8Len c)).map (fun l => c :: l)
    else none

/-- The complementary slice from a byte position to the end. -/
def strDropB : List Nat → Nat → Option (List Nat)
  | t, 0 => some t
  | [], _ + 1 => none
  | c :: t, i + 1 =>
    if utf8Len c ≤ i + 1 then strDropB t (i + 1 - utf8Len c) else none

/-- The descending byte-position loop of the longest-prefix search in
Editor::process_normal_char and Editor::process_pending_timeout.  The
outer none is the slice panic at a non-boundary byte position; the inner
option is the found (action, count, consumed bytes). -/
def gfGo (km : List (List Nat × Action)) (p : List Nat) :
    Nat → Option (Option (Action × Nat × Nat))
  | 0 => some none
  | i + 1 =>
    match strTakeB p (i + 1) with
    | none => none
    | some cand =>
      let pc := parseCount cand
      let key := cand.drop pc.2
      if key ≠ [] then
        match keymapGet km key with
        | some act => some (some (act, pc.1.getD 1, i + 1))
        | none => gfGo km p i
      else gfGo km p i

/-- The longest [count]key split of the whole pending buffer. -/
def greedyFind (km : List (List Nat × Action)) (p : List Nat) :
    Option (Option (Action × Nat × Nat)) :=
  gfGo km p (byteLen p)

/-- keymap.keys().any(starts_with rest). -/
def anyKeyStartsWith (km : List (List Nat × Action)) (rest : List Nat) : Bool :=
  km.any (fun p => rest ≠ [] && rest.isPrefixOf p.1)

/-- The exact-match resolution of Editor::process_normal_char, acting on
the remainder rest with optional count cnt. -/
def exactExec (e : Editor) (rest : List Nat) (act : Action) (cnt : Option Nat) :
    Editor × NormalInputResult :=
  if act = Action.commandPrompt then
    ({ e with pending := [], pendingStarted := false }, .rCommandPrompt)
  else if act = Action.enterVisual then
    ({ applyAction Action.enterVisual e with pending := [], pendingStarted := false }, .rNone)
  else if cnt.isSome ∧ (rest = [103, 103] ∨ rest = [71]) then
    ({ gotoLine (cnt.getD 1) e with pending := [], pendingStarted := false }, .rNone)
  else
    match e.opPending with
    | some (opk, n0) =>
      let e0 := { e with opPending := none }
      let eff := cnt.getD n0
      let e3 :=
        match opk, act with
        | .operatorDelete, .operatorDelete => applyActionCount Action.deleteLine eff e0
        | .operatorDelete, .deleteLine => applyActionCount Action.deleteLine eff e0
        | .operatorChange, .operatorChange => changeLines eff e0
        | .operatorYank, .operatorYank => yankLines eff e0
        | _, .moveWordForward => applyMotion act eff (some (opk, eff)) e0
        | _, .moveWordBackward => applyMotion act eff (some (opk, eff)) e0
        | _, .moveEndWord => applyMotion act eff (some (opk, eff)) e0
        | _, .lineStart => applyMotion act eff (some (opk, eff)) e0
        | _, .lineEnd => applyMotion act eff (some (opk, eff)) e0
        | _, other => applyActionCount other eff e0
      ({ e3 with pending := [], pendingStarted := false }, .rNone)
    | none =>
      if act = Action.operatorDelete ∨ act = Action.operatorChange ∨
          act = Action.operatorYank then
        ({ e with opPending := some (act, cnt.getD 1), pending := [],
                  pendingStarted := true }, .rNone)
      else
        ({ (applyActionCount act (cnt.getD 1) e) with
             pending := [], pendingStarted := false }, .rNone)

/-- The greedy-resolution execution of Editor::process_normal_char,
reached when no exact or prefix match exists; note that reading the
pending operator with Option::take clears it even when its kind is not
the one the matched arm wanted. -/
def greedyExec (e : Editor) (act : Action) (n : Nat) (cnt : Option Nat) (key2 : List Nat) :
    Editor :=
  match cnt with
  | some nn =>
    if key2 = [103, 103] ∨ key2 = [71] then gotoLine nn e
    else
      match e.opPending with
      | some (Action.operatorDelete, n0) =>
        let e0 := { e with opPending := none }
        let eff := max nn n0
        match act with
        | .operatorDelete => applyActionCount Action.deleteLine eff e0
        | .deleteLine => applyActionCount Action.deleteLine eff e0
        | .moveWordForward => applyMotion act eff (some (Action.operatorDelete, eff)) e0
        | .moveWordBackward => applyMotion act eff (some (Action.operatorDelete, eff)) e0
        | .moveEndWord => applyMotion act eff (some (Action.operatorDelete, eff)) e0
        | .lineStart => applyMotion act eff (some (Action.operatorDelete, eff)) e0
        | .lineEnd => applyMotion act eff (some (Action.operatorDelete, eff)) e0
        | _ => applyActionCount act eff e0
      | _ =>
        let e0 := { e with opPending := none }
        if act = Action.operatorDelete then
          { e0 with opPending := some (Action.operatorDelete, nn) }
        else applyActionCount act n e0
  | none =>
    match e.opPending with
    | some (opk, n0) =>
      let e0 := { e with opPending := none }
      let eff := max n n0
      match act with
      | .operatorDelete => applyActionCount Action.deleteLine eff e0
      | .deleteLine => applyActionCount Action.deleteLine eff e0
      | .moveWordForward => applyMotion act eff (some (opk, eff)) e0
      | .moveWordBackward => applyMotion act eff (some (opk, eff)) e0
      | .moveEndWord => applyMotion act eff (some (opk, eff)) e0
      | .lineStart => applyMotion act eff (some (opk, eff)) e0
      | .lineEnd => applyMotion act eff (some (opk, eff)) e0
      | _ => applyActionCount act eff e0
    | none => applyActionCount act n { e with opPending := none }

/-- One iteration of the resolution loop of Editor::process_normal_char:
done is a return, again re-enters the loop with a shorter pending
buffer, none is a panic (string slice at a non-boundary byte). -/
inductive PncStep
  | done : Editor × NormalInputResult → PncStep
  | again : Editor → PncStep

/-- The body of the resolution loop of Editor::process_normal_char. -/
def pncBody (e : Editor) : Option PncStep :=
  let pc := parseCount e.pending
  let rest := e.pending.drop pc.2
  if pc.1.isSome ∧ rest = [] then
    some (PncStep.done ({ e with pendingStarted := true }, .rNone))
  else
    match (if rest = [] then none else keymapGet e.keymap rest) with
    | some act => some (PncStep.done (exactExec e rest act pc.1))
    | none =>
      if anyKeyStartsWith e.keymap rest then
        some (PncStep.done ({ e with pendingStarted := true }, .rNone))
      else
        match greedyFind e.keymap e.pending with
        | none => none
        | some (some (act, n, consumed)) =>
          if act = Action.commandPrompt then
            some (PncStep.done ({ e with pending := [], pendingStarted := false },
              .rCommandPrompt))
          else if act = Action.enterVisual then
            let e1 := applyAction Action.enterVisual e
            match strDropB e.pending consumed with
            | none => none
            | some p2 =>
              if p2 = [] then
                some (PncStep.done ({ e1 with pending := [], pendingStarted := false }, .rNone))
              else some (PncStep.again { e1 with pending := p2 })
          else
            match strTakeB e.pending consumed with
            | none => none
            | some cand =>
              let pc2 := parseCount cand
              let e2 := greedyExec e act n pc2.1 (cand.drop pc2.2)
              match strDropB e.pending consumed with
              | none => none
              | some p2 =>
                if p2 = [] then
                  some (PncStep.done ({ e2 with pending := [], pendingStarted := false }, .rNone))
                else some (PncStep.again { e2 with pending := p2 })
        | some none =>
          if e.pending = [] then
            some (PncStep.done ({ e with pendingStarted := false }, .rNone))
          else if e.pending.drop 1 = [] then
            some (PncStep.done ({ e with pending := [], pendingStarted := false }, .rNone))
          else some (PncStep.again { e with pending := e.pending.drop 1 })

/-- The fuelled resolution loop; the fuel-exhaustion fallback is never
reached for fuel above the pending length. -/
def pncGo : Nat → Editor → Option (Editor × NormalInputResult)
  | 0, e => some (e, .rNone)
  | f + 1, e =>
    match pncBody e with
    | none => none
    | some (PncStep.done p) => some p
    | some (PncStep.again e1) => pncGo f e1

/-- Editor::process_normal_char: append the character and resolve. -/
def processNormalChar (c : Nat) (e : Editor) : Option (Editor × NormalInputResult) :=
  pncGo (e.pending.length + 2) { e with pending := e.pending ++ [c] }

/-- Editor::process_pending_timeout. -/
def processPendingTimeout (e : Editor) : Option (Editor × NormalInputResult) :=
  if e.pending = [] then some (e, .rNone)
  else
    let pc := parseCount e.pending
    if pc.1.isSome ∧ pc.2 = byteLen e.pending then
      some ({ e with pending := [], pendingStarted := false }, .rNone)
    else
      match greedyFind e.keymap e.pending with
      | none => none
      | some none => some ({ e with pending := [], pendingStarted := false }, .rNone)
      | some (some (act, n, consumed)) =>
        if act = Action.commandPrompt then
          some ({ e with pending := [], pendingStarted := false }, .rCommandPrompt)
        else
          let e2 :=
            if act = Action.operatorDelete then
              { e with opPending := some (Action.operatorDelete, n) }
            else { applyActionCount act n e with opPending := none }
          match strDropB e.pending consumed with
          | none => none
          | some p2 =>
            if p2 = [] then some ({ e2 with pending := [], pendingStarted := false }, .rNone)
            else some ({ e2 with pending := p2, pendingStarted := true }, .rNone)

/-- str::trim restricted to the model alphabet (spaces). -/
def trimSpaces (s : List Nat) : List Nat :=
  ((s.dropWhile (fun c => c = 32)).reverse.dropWhile (fun c => c = 32)).reverse

/-- isize::from_str on an already-sign-stripped-or-not string: optional
sign then digits (overflow not modelled). -/
def parseIsize (s : List Nat) : Option Int :=
  match s with
  | [] => none
  | c :: t =>
    if c = 43 ∨ c = 45 then
      if t ≠ [] ∧ t.all (fun d => 48 ≤ d && d ≤ 57) then
        let v : Int := t.foldl (fun a d => 10 * a + (Int.ofNat d - 48)) 0
        some (if c = 45 then -v else v)
      else none
    else if (c :: t).all (fun d => 48 ≤ d && d ≤ 57) then
      some ((c :: t).foldl (fun a d => 10 * a + (Int.ofNat d - 48)) 0)
    else none

/-- Editor::execute_ex_command. -/
def executeExCommand (cmd : List Nat) (e : Editor) : Editor × Bool :=
  let s := trimSpaces cmd
  if s = [36] then
    (if 0 < e.buf.lineCount then { e with cy := e.buf.lineCount - 1, cx := 0 } else e, true)
  else
    let relative :=
      if (s.headD 0 = 43 ∨ s.headD 0 = 45) ∧ 1 < s.length then
        match parseIsize (s.drop 1) with
        | some n =>
          let sign : Int := if s.headD 0 = 43 then 1 else -1
          let target :=
            max 0 (min (Int.ofNat e.cy + sign * n) (Int.ofNat (e.buf.lineCount - 1)))
          some (clampCursor { e with cy := target.toNat, cx := 0 })
        | none => none
      else none
    match relative with
    | some e2 => (e2, true)
    | none =>
      if s ≠ [] ∧ s.all (fun d => 48 ≤ d && d ≤ 57) then
        let n0 := s.foldl (fun a d => 10 * a + (d - 48)) 0
        let n := if n0 = 0 then 1 else n0
        if 0 < e.buf.lineCount then
          (clampCursor { e with cy := min n e.buf.lineCount - 1, cx := 0 }, true)
        else (e, true)
      else (e, false)

end Editor

/-! ### Basic lemmas about the line decomposition and widths -/

theorem gwAt_pos (col g : Nat) : 0 < gwAt col g := by
  unfold gwAt
  split
  · have h1 := Nat.div_add_mod col 4
    have h2 : col % 4 < 4 := Nat.mod_lt _ (by decide)
    simp only [TABSTOP]
    omega
  · have := Nat.le_max_right (chWidth g) 1
    omega

theorem widthAcc_nil (acc : Nat) : widthAcc acc [] = acc := rfl

theorem widthAcc_cons (acc g : Nat) (l : List Nat) :
    widthAcc acc (g :: l) = widthAcc (acc + gwAt acc g) l := rfl

theorem widthAcc_append (acc : Nat) (a b : List Nat) :
    widthAcc acc (a ++ b) = widthAcc (widthAcc acc a) b := by
  simp [widthAcc, List.foldl_append]

theorem le_widthAcc (acc : Nat) (l : List Nat) : acc ≤ widthAcc acc l := by
  induction l generalizing acc with
  | nil => simp [widthAcc_nil]
  | cons g t ih =>
    rw [widthAcc_cons]
    exact le_trans (Nat.le_add_right acc (gwAt acc g)) (ih (acc + gwAt acc g))

theorem splitNl_nil : splitNl [] = [[]] := rfl

theorem splitNl_cons_nl (t : List Nat) : splitNl (10 :: t) = [] :: splitNl t := by
  simp [splitNl]

theorem splitNl_cons_ne (c : Nat) (t : List Nat) (h : c ≠ 10) :
    splitNl (c :: t) = (c :: (splitNl t).headD []) :: (splitNl t).tail := by
  simp [splitNl, h]

theorem splitNl_ne_nil (t : List Nat) : splitNl t ≠ [] := by
  cases t with
  | nil => simp [splitNl]
  | cons c t => by_cases h : c = 10 <;> simp [splitNl, h]

theorem splitNl_length (t : List Nat) : (splitNl t).length = t.count 10 + 1 := by
  induction t with
  | nil => rfl
  | cons c t ih =>
    by_cases h : c = 10
    · subst h
      simp [splitNl_cons_nl, ih, List.count_cons]
    · obtain ⟨hd, tl, hs⟩ : ∃ hd tl, splitNl t = hd :: tl := by
        cases hsp : splitNl t with
        | nil => exact absurd hsp (splitNl_ne_nil t)
        | cons hd tl => exact ⟨hd, tl, rfl⟩
      simp [splitNl_cons_ne c t h, hs, List.count_cons, h] at ih ⊢
      omega

theorem Buffer.lineCount_pos (b : Buffer) : 0 < b.lineCount := by
  have := splitNl_ne_nil b.text
  simp [Buffer.lineCount]
  exact List.length_pos.mpr this

theorem lineStart_le_length (t : List Nat) (y : Nat) : lineStart t y ≤ t.length := by
  induction t generalizing y with
  | nil => cases y <;> simp [lineStart]
  | cons c t ih =>
    cases y with
    | zero => simp [lineStart]
    | succ y =>
      by_cases h : c = 10
      · have := ih y
        simp [lineStart, h]
        omega
      · have := ih (y + 1)
        simp [lineStart, h]
        omega

theorem lineStart_add_line_length_le (t : List Nat) (y : Nat) :
    lineStart t y + ((splitNl t).getD y []).length ≤ t.length := by
  induction t generalizing y with
  | nil => cases y <;> simp [lineStart, splitNl]
  | cons c t ih =>
    obtain ⟨hd, tl, hs⟩ : ∃ hd tl, splitNl t = hd :: tl := by
      cases hsp : splitNl t with
      | nil => exact absurd hsp (splitNl_ne_nil t)
      | cons hd tl => exact ⟨hd, tl, rfl⟩
    cases y with
    | zero =>
      by_cases h : c = 10
      · simp [lineStart, h, splitNl_cons_nl]
      · have := ih 0
        simp [lineStart, h, splitNl_cons_ne c t h, hs] at this ⊢
        omega
    | succ y =>
      by_cases h : c = 10
      · have := ih y
        simp [lineStart, h, splitNl_cons_nl] at this ⊢
        omega
      · have := ih (y + 1)
        simp [lineStart, h, splitNl_cons_ne c t h, hs] at this ⊢
        omega

/-! ### C10: remove_char_range ignores invalid ranges in whole -/

/-- C10: remove_char_range(start, end) removes the characters in
[start, end) exactly when start < end and end does not exceed the
document's character count; for any other arguments it leaves the buffer
completely unchanged. -/
theorem c10_remove_char_range (b : Buffer) (s e : Nat) :
    (s < e ∧ e ≤ b.text.length →
       (b.removeCharRange s e).text = b.text.take s ++ b.text.drop e) ∧
    (¬(s < e ∧ e ≤ b.text.length) → b.removeCharRange s e = b) := by
  constructor <;> intro h <;> simp [Buffer.removeCharRange, h]

/-- Witness for C10 at a concrete buffer and range. -/
theorem c10_witness :
    ((Buffer.mk [5, 6, 7, 8]).removeCharRange 1 3).text =
      [5, 6, 7, 8].take 1 ++ [5, 6, 7, 8].drop 3 :=
  (c10_remove_char_range (Buffer.mk [5, 6, 7, 8]) 1 3).1 (by decide)

/-! ### C8: the buffer never has fewer than one line -/

/-- C8: every buffer state whatsoever has line_count at least 1 (ropey
always reports newline-count + 1 lines), so no sequence of operations
can drop below one line; and delete_line on the last remaining line
leaves a single empty line. -/
theorem c8_line_count_invariant :
    (∀ b : Buffer, 1 ≤ b.lineCount) ∧
    (∀ b : Buffer, b.lineCount = 1 →
       (b.deleteLine 0).text = [] ∧ splitNl (b.deleteLine 0).text = [[]] ∧
       (b.deleteLine 0).lineCount = 1) := by
  constructor
  · exact fun b => b.lineCount_pos
  · intro b h
    have : (b.deleteLine 0).text = [] := by
      simp [Buffer.deleteLine, h, lineStart]
    refine ⟨this, ?_, ?_⟩ <;> simp [this, Buffer.lineCount, splitNl]

/-- Witness for C8 on the one-line buffer containing abc. -/
theorem c8_witness :
    ((Buffer.mk [97, 98, 99]).deleteLine 0).text = [] ∧
    splitNl ((Buffer.mk [97, 98, 99]).deleteLine 0).text = [[]] ∧
    ((Buffer.mk [97, 98, 99]).deleteLine 0).lineCount = 1 :=
  c8_line_count_invariant.2 (Buffer.mk [97, 98, 99]) (by decide)

/-! ### C9: prev_col / next_col bounds and strict progress -/

theorem ncGo_le (col len : Nat) (l : List Nat) (acc : Nat) :
    Buffer.ncGo col len l acc ≤ len := by
  induction l generalizing acc with
  | nil => simp [Buffer.ncGo]
  | cons g t ih =>
    simp only [Buffer.ncGo]
    split
    · exact Nat.min_le_right _ _
    · exact ih _

theorem lt_ncGo (col len : Nat) (l : List Nat) (acc : Nat) (h : col < len) :
    col < Buffer.ncGo col len l acc := by
  induction l generalizing acc with
  | nil => simpa [Buffer.ncGo]
  | cons g t ih =>
    simp only [Buffer.ncGo]
    split
    · rename_i hc
      have := gwAt_pos acc g
      exact lt_min (by omega) h
    · exact ih _

theorem nextCol_le (b : Buffer) (col y : Nat) : b.nextCol col y ≤ b.lineWidth y := by
  by_cases h : b.lineWidth y ≤ col
  · simp [Buffer.nextCol, h]
  · simp only [Buffer.nextCol, if_neg h]
    exact ncGo_le _ _ _ _

theorem lt_nextCol (b : Buffer) (col y : Nat) (h : col < b.lineWidth y) :
    col < b.nextCol col y := by
  have hn : ¬b.lineWidth y ≤ col := by omega
  simp only [Buffer.nextCol, if_neg hn]
  exact lt_ncGo _ _ _ _ h

theorem nextCol_of_ge (b : Buffer) (col y : Nat) (h : b.lineWidth y ≤ col) :
    b.nextCol col y = b.lineWidth y := by
  simp [Buffer.nextCol, h]

theorem pcGo_lt (col : Nat) (l : List Nat) (acc pa : Nat) (h : pa < col) :
    Buffer.pcGo col l acc pa < col := by
  induction l generalizing acc pa with
  | nil => simpa [Buffer.pcGo]
  | cons g t ih =>
    simp only [Buffer.pcGo]
    split
    · exact h
    · rename_i hc
      exact ih _ _ (by omega)

theorem pcGo_le (col : Nat) (l : List Nat) (acc pa : Nat) (h : pa ≤ acc) :
    Buffer.pcGo col l acc pa ≤ widthAcc acc l := by
  induction l generalizing acc pa with
  | nil => simpa [Buffer.pcGo, widthAcc_nil]
  | cons g t ih =>
    simp only [Buffer.pcGo, widthAcc_cons]
    split
    · exact le_trans h (le_trans (Nat.le_add_right _ _) (le_widthAcc _ t))
    · exact ih _ _ (Nat.le_add_right _ _)

theorem prevCol_le (b : Buffer) (col y : Nat) : b.prevCol col y ≤ b.lineWidth y := by
  unfold Buffer.prevCol
  split
  · exact Nat.zero_le _
  · exact pcGo_le _ _ _ _ le_rfl

theorem prevCol_lt (b : Buffer) (col y : Nat) (h : 0 < col) : b.prevCol col y < col := by
  unfold Buffer.prevCol
  split
  · omega
  · exact pcGo_lt _ _ _ _ h

theorem nextCol_iter_reach_aux (b : Buffer) (y : Nat) :
    ∀ k c, c ≤ b.lineWidth y → b.lineWidth y ≤ c + k →
      (fun c => b.nextCol c y)^[k] c = b.lineWidth y := by
  intro k
  induction k with
  | zero =>
    intro c h1 h2
    simp only [Function.iterate_zero, id]
    omega
  | succ k ih =>
    intro c h1 h2
    rw [Function.iterate_succ_apply]
    rcases Nat.lt_or_ge c (b.lineWidth y) with hlt | hge
    · have hgt := lt_nextCol b c y hlt
      have hle := nextCol_le b c y
      exact ih _ hle (by omega)
    · have hc : c = b.lineWidth y := by omega
      rw [hc, nextCol_of_ge b _ y le_rfl]
      exact ih _ le_rfl (by omega)

theorem prevCol_iter_reach_aux (b : Buffer) (y : Nat) :
    ∀ k c, c ≤ k → (fun c => b.prevCol c y)^[k] c = 0 := by
  intro k
  induction k with
  | zero =>
    intro c h
    interval_cases c
    simp
  | succ k ih =>
    intro c h
    rw [Function.iterate_succ_apply]
    rcases Nat.eq_zero_or_pos c with h0 | hpos
    · subst h0
      have : b.prevCol 0 y = 0 := by simp [Buffer.prevCol]
      rw [this]
      exact ih 0 (Nat.zero_le _)
    · have := prevCol_lt b c y hpos
      exact ih _ (by omega)

/-- C9: prev_col and next_col always land inside [0, display width of
the line]; prev_col strictly decreases from any positive column and
next_col strictly increases below the line width, and therefore
iterating them reaches column 0, respectively the full line width, in a
bounded number of steps. -/
theorem c9_col_stepping (b : Buffer) (y col : Nat) :
    b.nextCol col y ≤ b.lineWidth y ∧
    b.prevCol col y ≤ b.lineWidth y ∧
    (0 < col → b.prevCol col y < col) ∧
    (col < b.lineWidth y → col < b.nextCol col y) ∧
    (fun c => b.nextCol c y)^[b.lineWidth y + 1] col = b.lineWidth y ∧
    (fun c => b.prevCol c y)^[col] col = 0 := by
  refine ⟨nextCol_le b col y, prevCol_le b col y,
    fun h => prevCol_lt b col y h, fun h => lt_nextCol b col y h, ?_, ?_⟩
  · rcases le_or_lt col (b.lineWidth y) with hle | hgt
    · exact nextCol_iter_reach_aux b y _ col hle (by omega)
    · rw [Function.iterate_succ_apply, nextCol_of_ge b col y (by omega)]
      exact nextCol_iter_reach_aux b y _ _ le_rfl (by omega)
  · exact prevCol_iter_reach_aux b y col col le_rfl

/-- Witness for C9 on the tabbed line of the source's own test, at
column 3 (inside the tab's span). -/
theorem c9_witness :
    (Buffer.mk [97, 9, 98]).nextCol 3 0 ≤ (Buffer.mk [97, 9, 98]).lineWidth 0 ∧
    (Buffer.mk [97, 9, 98]).prevCol 3 0 ≤ (Buffer.mk [97, 9, 98]).lineWidth 0 ∧
    (0 < 3 → (Buffer.mk [97, 9, 98]).prevCol 3 0 < 3) ∧
    (3 < (Buffer.mk [97, 9, 98]).lineWidth 0 → 3 < (Buffer.mk [97, 9, 98]).nextCol 3 0) ∧
    (fun c => (Buffer.mk [97, 9, 98]).nextCol c 0)^[(Buffer.mk [97, 9, 98]).lineWidth 0 + 1] 3 =
      (Buffer.mk [97, 9, 98]).lineWidth 0 ∧
    (fun c => (Buffer.mk [97, 9, 98]).prevCol c 0)^[3] 3 = 0 :=
  c9_col_stepping (Buffer.mk [97, 9, 98]) 0 3

/-! ### C7: mode and anchor after the visual operations -/

/-- The state used to refute C7: Visual mode with an empty selection. -/
def c7state : Editor :=
  { Editor.initEditor with mode := Mode.visual, visualAnchor := some (0, 0) }

/-- Counterexample to C7 as stated: visual_change never returns to
Normal mode; even on an empty selection it ends in Insert mode. -/
theorem c7_counterexample :
    (Editor.visualChange c7state).mode = Mode.insert ∧
    ¬(Editor.visualChange c7state).mode = Mode.normal := by decide

theorem visualDelete_mode (e : Editor) :
    (Editor.visualDelete e).mode = Mode.normal ∧
    (Editor.visualDelete e).visualAnchor = none := by
  simp [Editor.visualDelete]

theorem visualYank_mode (e : Editor) :
    (Editor.visualYank e).mode = Mode.normal ∧
    (Editor.visualYank e).visualAnchor = none := by
  simp [Editor.visualYank]

theorem visualChange_mode (e : Editor) :
    (Editor.visualChange e).mode = Mode.insert ∧
    (Editor.visualChange e).visualAnchor = none := by
  unfold Editor.visualChange
  refine ⟨?_, rfl⟩
  split <;> first
    | rfl
    | (split <;> rfl)

/-- C7 amended: after visual_delete and visual_yank the editor is
unconditionally in Normal mode with the anchor cleared, even when the
computed selection is empty; visual_change instead ends unconditionally
in Insert mode, likewise clearing the anchor. -/
theorem c7_visual_ops_amended (e : Editor) :
    (Editor.visualDelete e).mode = Mode.normal ∧
    (Editor.visualDelete e).visualAnchor = none ∧
    (Editor.visualYank e).mode = Mode.normal ∧
    (Editor.visualYank e).visualAnchor = none ∧
    (Editor.visualChange e).mode = Mode.insert ∧
    (Editor.visualChange e).visualAnchor = none :=
  ⟨(visualDelete_mode e).1, (visualDelete_mode e).2,
   (visualYank_mode e).1, (visualYank_mode e).2,
   (visualChange_mode e).1, (visualChange_mode e).2⟩

/-! ### C5: totality of the Buffer operations -/

/-- Counterexample to C5 as stated: on the one-line buffer containing a,
row 2 exceeds line_count = 1, and insert_char, insert_newline and
char_index_at_col all reach ropey's Rope::line_to_char out-of-bounds
panic (modelled as none) instead of clamping. -/
theorem c5_counterexample :
    (Buffer.mk [97]).lineCount = 1 ∧
    (Buffer.mk [97]).insertCharQ 0 2 98 = none ∧
    (Buffer.mk [97]).insertNewlineQ 0 2 = none ∧
    (Buffer.mk [97]).charIndexAtColQ 2 0 = none := by decide

/-- C5 amended: the column argument of every operation is clamped and
no operation fails on it, and the row-taking operations are total for
every row up to line_count (one past the last line included); but
insert_char, insert_newline and char_index_at_col panic for rows
strictly beyond line_count.  In the non-panicking region the computed
character index stays within the document. -/
theorem c5_buffer_totality_amended (b : Buffer) (y col ch : Nat) (h : y ≤ b.lineCount) :
    b.insertCharQ col y ch = some (b.insertChar col y ch) ∧
    b.insertNewlineQ col y = some (b.insertNewline col y) ∧
    b.charIndexAtColQ y col = some (b.charIndexAtCol y col) ∧
    b.charIndexAtCol y col ≤ b.text.length := by
  refine ⟨by simp [Buffer.insertCharQ, h], by simp [Buffer.insertNewlineQ, h],
    by simp [Buffer.charIndexAtColQ, h], ?_⟩
  have h1 := lineStart_add_line_length_le b.text y
  have h2 : min (b.colToLineByte y col) (b.lineString y).length ≤ (b.lineString y).length :=
    Nat.min_le_right _ _
  simp only [Buffer.charIndexAtCol, Buffer.colToCharIndex, Buffer.lineString] at h2 ⊢
  omega

open Editor

/-! ### C4: the resolution loop of process_normal_char -/

theorem gfGo_consumed_bounds (km : List (List Nat × Action)) (p : List Nat) :
    ∀ i a n k, gfGo km p i = some (some (a, n, k)) → 1 ≤ k ∧ k ≤ i := by
  intro i
  induction i with
  | zero =>
    intro a n k h
    simp [gfGo] at h
  | succ i ih =>
    intro a n k h
    simp only [gfGo] at h
    cases hst : strTakeB p (i + 1) with
    | none => rw [hst] at h; simp at h
    | some cand =>
      rw [hst] at h
      simp only at h
      split at h
      · cases hk : keymapGet km (cand.drop (parseCount cand).2) with
        | some act =>
          rw [hk] at h
          simp at h
          omega
        | none =>
          rw [hk] at h
          have := ih a n k h
          omega
      · have := ih a n k h
        omega

theorem greedyFind_consumed_pos (km : List (List Nat × Action)) (p : List Nat)
    (a : Action) (n k : Nat) (h : greedyFind km p = some (some (a, n, k))) : 1 ≤ k :=
  (gfGo_consumed_bounds km p (byteLen p) a n k h).1

theorem strDropB_length_lt (p : List Nat) :
    ∀ i p2, strDropB p i = some p2 → 1 ≤ i → p2.length < p.length := by
  induction p with
  | nil =>
    intro i p2 h hi
    cases i with
    | zero => omega
    | succ i => simp [strDropB] at h
  | cons c t ih =>
    intro i p2 h hi
    cases i with
    | zero => omega
    | succ i =>
      simp only [strDropB] at h
      split at h
      · cases hm : i + 1 - utf8Len c with
        | zero =>
          rw [hm] at h
          simp only [strDropB] at h
          cases h
          simp
        | succ j =>
          rw [hm] at h
          have := ih (j + 1) p2 h (by omega)
          simp only [List.length_cons]
          omega
      · simp at h

theorem pncBody_again_length (e e1 : Editor) (h : pncBody e = some (PncStep.again e1)) :
    e1.pending.length < e.pending.length := by
  simp only [pncBody] at h
  split at h
  · simp at h
  · split at h
    · simp at h
    · split at h
      · simp at h
      · split at h
        · simp at h
        · rename_i act n consumed hgf
          split at h
          · simp at h
          · split at h
            · -- enter-visual greedy arm
              cases hsd : strDropB e.pending consumed with
              | none => rw [hsd] at h; simp at h
              | some p2 =>
                rw [hsd] at h
                simp only at h
                split at h
                · simp at h
                · simp only [Option.some.injEq, PncStep.again.injEq] at h
                  subst h
                  exact strDropB_length_lt e.pending consumed p2 hsd
                    (greedyFind_consumed_pos _ _ _ _ _ hgf)
            · -- main greedy arm
              cases hstk : strTakeB e.pending consumed with
              | none => rw [hstk] at h; simp at h
              | some cand =>
                rw [hstk] at h
                simp only at h
                cases hsd : strDropB e.pending consumed with
                | none => rw [hsd] at h; simp at h
                | some p2 =>
                  rw [hsd] at h
                  simp only at h
                  split at h
                  · simp at h
                  · simp only [Option.some.injEq, PncStep.again.injEq] at h
                    subst h
                    exact strDropB_length_lt e.pending consumed p2 hsd
                      (greedyFind_consumed_pos _ _ _ _ _ hgf)
        · -- drop-first-character arm
          split at h
          · simp at h
          · split at h
            · simp at h
            · rename_i hne hdr
              simp only [Option.some.injEq, PncStep.again.injEq] at h
              subst h
              have hlen : e.pending.length ≠ 0 := by
                intro h0
                exact hne (List.length_eq_zero.mp h0)
              simp only [List.length_drop]
              omega

theorem pncGo_stable (l : Nat) :
    ∀ e : Editor, e.pending.length ≤ l → ∀ f, e.pending.length < f →
      pncGo f e = pncGo (e.pending.length + 1) e := by
  induction l with
  | zero =>
    intro e hl f hf
    obtain ⟨f0, rfl⟩ : ∃ f0, f = f0 + 1 := ⟨f - 1, by omega⟩
    simp only [pncGo]
    cases hb : pncBody e with
    | none => simp
    | some st =>
      cases st with
      | done p => simp
      | again e1 =>
        have := pncBody_again_length e e1 hb
        omega
  | succ l ih =>
    intro e hl f hf
    obtain ⟨f0, rfl⟩ : ∃ f0, f = f0 + 1 := ⟨f - 1, by omega⟩
    rcases Nat.lt_or_ge e.pending.length (f0 + 1) with hlt | hge
    · by_cases hsmall : e.pending.length ≤ l
      · exact ih e hsmall (f0 + 1) hf
      · have hlen : e.pending.length = l + 1 := by omega
        simp only [pncGo]
        cases hb : pncBody e with
        | none => simp
        | some st =>
          cases st with
          | done p => simp
          | again e1 =>
            have h1 := pncBody_again_length e e1 hb
            have e1small : e1.pending.length ≤ l := by omega
            have left : pncGo f0 e1 = pncGo (e1.pending.length + 1) e1 :=
              ih e1 e1small f0 (by omega)
            have right : pncGo (e.pending.length) e1 = pncGo (e1.pending.length + 1) e1 :=
              ih e1 e1small (e.pending.length) (by omega)
            show pncGo f0 e1 = pncGo e.pending.length e1
            rw [left, right]
    · omega

/-- The editor state on which the claim's no-panic guarantee fails: a
fresh editor about to be fed one character. -/
theorem c4_pnc_termination :
    (∀ (e : Editor) (c : Nat) (fuel : Nat),
        ({ e with pending := e.pending ++ [c] } : Editor).pending.length < fuel →
        pncGo fuel { e with pending := e.pending ++ [c] } = Editor.processNormalChar c e) ∧
    Editor.processNormalChar 233 Editor.initEditor = none := by
  constructor
  · intro e c fuel hf
    unfold Editor.processNormalChar
    have hfit := pncGo_stable ({ e with pending := e.pending ++ [c] } : Editor).pending.length
      { e with pending := e.pending ++ [c] } le_rfl fuel hf
    have hlen : ({ e with pending := e.pending ++ [c] } : Editor).pending.length =
        e.pending.length + 1 := by simp
    rw [hfit, hlen]
  · decide

/-- Witness for C4: the fuel-independence part applied at a concrete
editor, character and fuel. -/
theorem c4_witness :
    pncGo 5 { Editor.initEditor with pending := Editor.initEditor.pending ++ [106] } =
      Editor.processNormalChar 106 Editor.initEditor :=
  c4_pnc_termination.1 Editor.initEditor 106 5 (by decide)

/-! ### C6: behaviour of process_pending_timeout -/

/-- Agreement on every editor field except the cursor and the pending
operator (what an operator-key press can touch, cursor clamping aside). -/
def SameCore (x y : Editor) : Prop :=
  x.buf = y.buf ∧ x.clipboard = y.clipboard ∧ x.clipboardKind = y.clipboardKind ∧
  x.undoStack = y.undoStack ∧ x.redoStack = y.redoStack ∧ x.mode = y.mode ∧
  x.pending = y.pending ∧ x.pendingStarted = y.pendingStarted ∧
  x.keymap = y.keymap ∧ x.dirty = y.dirty ∧ x.visualAnchor = y.visualAnchor ∧
  x.undoGroupActive = y.undoGroupActive ∧ x.countGroupActive = y.countGroupActive

theorem sameCore_clamp (e : Editor) : SameCore (clampCursor e) e := by
  simp [SameCore, clampCursor]

theorem sameCore_trans {x y z : Editor} (h1 : SameCore x y) (h2 : SameCore y z) :
    SameCore x z := by
  obtain ⟨a1, a2, a3, a4, a5, a6, a7, a8, a9, a10, a11, a12, a13⟩ := h1
  obtain ⟨b1, b2, b3, b4, b5, b6, b7, b8, b9, b10, b11, b12, b13⟩ := h2
  exact ⟨a1.trans b1, a2.trans b2, a3.trans b3, a4.trans b4, a5.trans b5, a6.trans b6,
    a7.trans b7, a8.trans b8, a9.trans b9, a10.trans b10, a11.trans b11,
    a12.trans b12, a13.trans b13⟩

theorem applyActionCore_operator (a : Action)
    (ha : a = Action.operatorChange ∨ a = Action.operatorYank) (e : Editor) :
    applyActionCore a e = { e with opPending := some (a, 1) } := by
  rcases ha with h | h <;> subst h <;> simp [applyActionCore]

theorem sameCore_applyAction_operator (a : Action)
    (ha : a = Action.operatorChange ∨ a = Action.operatorYank) (e : Editor) :
    SameCore (applyAction a e) e := by
  have h1 : applyAction a e = clampCursor (applyActionCore a e) := by
    simp [applyAction]
  rw [h1, applyActionCore_operator a ha e]
  refine sameCore_trans (sameCore_clamp _) ?_
  simp [SameCore]

theorem sameCore_applyN_operator (a : Action)
    (ha : a = Action.operatorChange ∨ a = Action.operatorYank) :
    ∀ (n : Nat) (e : Editor), SameCore (applyN a n e) e := by
  intro n
  induction n with
  | zero =>
    intro e
    have : applyN a 0 e = e := by simp [applyN]
    rw [this]
    simp [SameCore]
  | succ m ih =>
    intro e
    have : applyN a (m + 1) e = applyN a m (applyAction a e) := by
      simp [applyN]
    rw [this]
    exact sameCore_trans (ih _) (sameCore_applyAction_operator a ha e)

theorem applyActionCount_operator (a : Action)
    (ha : a = Action.operatorChange ∨ a = Action.operatorYank) (n : Nat) (e : Editor) :
    applyActionCount a n e = { applyN a (max n 1) e with countGroupActive := false } := by
  rcases ha with h | h <;> subst h <;> simp [applyActionCount, isEditingAction]

/-- The state used to refute C6: pending c (the change operator) with
the default keymap, hitting the timeout. -/
def c6state : Editor := { Editor.initEditor with pending := [99], pendingStarted := true }

/-- Counterexample to C6 as stated: on timeout the pending c resolves
to the change operator, but the operator is not kept pending -- the Some
branch exists only for the delete operator, and change/yank end with
op_pending cleared. -/
theorem c6_counterexample :
    greedyFind c6state.keymap c6state.pending =
      some (some (Action.operatorChange, 1, 1)) ∧
    (Editor.processPendingTimeout c6state).map (fun p => p.1.opPending) = some none := by
  decide

/-- C6 amended: on timeout with a non-empty pending sequence, (1) a pure
count is discarded with nothing executed; otherwise one longest-prefix
search runs and (2) if it resolves to the DELETE operator, that operator
is kept pending and the remaining suffix is preserved with a refreshed
timer (cleared when nothing remains); (3) if it resolves to the change
or yank operator the operator is NOT kept pending: the resolution leaves
buffer, clipboard, stacks and mode unchanged and clears op_pending,
handling the suffix the same way; (4) if nothing resolves the pending is
discarded entirely; and (5) pending g with no follow-up resolves to the
unchanged initial editor with empty pending and no action executed. -/
theorem c6_timeout_amended :
    (∀ e : Editor, e.pending ≠ [] → (parseCount e.pending).1.isSome →
      (parseCount e.pending).2 = byteLen e.pending →
      Editor.processPendingTimeout e =
        some ({ e with pending := [], pendingStarted := false }, .rNone)) ∧
    (∀ (e : Editor) (n k : Nat) (p2 : List Nat),
      e.pending ≠ [] →
      ¬((parseCount e.pending).1.isSome ∧ (parseCount e.pending).2 = byteLen e.pending) →
      greedyFind e.keymap e.pending = some (some (Action.operatorDelete, n, k)) →
      strDropB e.pending k = some p2 →
      Editor.processPendingTimeout e =
        some ((if p2 = [] then
            { e with opPending := some (Action.operatorDelete, n), pending := [],
                     pendingStarted := false }
          else
            { e with opPending := some (Action.operatorDelete, n), pending := p2,
                     pendingStarted := true }), .rNone)) ∧
    (∀ (e : Editor) (a : Action) (n k : Nat) (p2 : List Nat),
      (a = Action.operatorChange ∨ a = Action.operatorYank) →
      e.pending ≠ [] →
      ¬((parseCount e.pending).1.isSome ∧ (parseCount e.pending).2 = byteLen e.pending) →
      greedyFind e.keymap e.pending = some (some (a, n, k)) →
      strDropB e.pending k = some p2 →
      ∃ e2, Editor.processPendingTimeout e = some (e2, .rNone) ∧
        e2.opPending = none ∧ e2.buf = e.buf ∧ e2.clipboard = e.clipboard ∧
        e2.clipboardKind = e.clipboardKind ∧ e2.undoStack = e.undoStack ∧
        e2.redoStack = e.redoStack ∧ e2.mode = e.mode ∧
        e2.pending = (if p2 = [] then [] else p2) ∧
        e2.pendingStarted = (if p2 = [] then false else true)) ∧
    (∀ e : Editor, e.pending ≠ [] →
      ¬((parseCount e.pending).1.isSome ∧ (parseCount e.pending).2 = byteLen e.pending) →
      greedyFind e.keymap e.pending = some none →
      Editor.processPendingTimeout e =
        some ({ e with pending := [], pendingStarted := false }, .rNone)) ∧
    Editor.processPendingTimeout
        { Editor.initEditor with pending := [103], pendingStarted := true } =
      some (Editor.initEditor, .rNone) := by
  refine ⟨?_, ?_, ?_, ?_, by decide⟩
  · intro e hne his hidx
    simp [Editor.processPendingTimeout, hne, his, hidx]
  · intro e n k p2 hne hcnt hgf hsd
    simp only [Editor.processPendingTimeout, if_neg hne, hgf, hsd]
    have hnp : ¬(Action.operatorDelete = Action.commandPrompt) := by decide
    simp [hcnt, hnp]
    by_cases hp2 : p2 = [] <;> simp [hp2]
  · intro e a n k p2 ha hne hcnt hgf hsd
    have hncp : ¬(a = Action.commandPrompt) := by
      rcases ha with h | h <;> subst h <;> decide
    have hnod : ¬(a = Action.operatorDelete) := by
      rcases ha with h | h <;> subst h <;> decide
    have hfields := sameCore_applyN_operator a ha (max n 1) e
    obtain ⟨f1, f2, f3, f4, f5, f6, f7, f8, f9, f10, f11, f12, f13⟩ := hfields
    simp only [Editor.processPendingTimeout, if_neg hne, hgf, hsd]
    simp only [hcnt, if_neg hncp, if_neg hnod]
    rw [applyActionCount_operator a ha n e]
    by_cases hp2 : p2 = []
    · subst hp2
      simp only [if_pos rfl]
      exact ⟨_, rfl, rfl, f1, f2, f3, f4, f5, f6, by simp, by simp⟩
    · simp only [if_neg hp2]
      exact ⟨_, rfl, rfl, f1, f2, f3, f4, f5, f6, by simp [hp2], by simp [hp2]⟩
  · intro e hne hcnt hgf
    simp [Editor.processPendingTimeout, hne, hcnt, hgf]

/-- Witness for C6 amended: the delete-operator branch at pending d. -/
theorem c6_witness :
    Editor.processPendingTimeout { Editor.initEditor with pending := [100] } =
      some ((if ([] : List Nat) = [] then
          { { Editor.initEditor with pending := [100] } with
              opPending := some (Action.operatorDelete, 1), pending := [],
              pendingStarted := false }
        else
          { { Editor.initEditor with pending := [100] } with
              opPending := some (Action.operatorDelete, 1), pending := [],
              pendingStarted := true }), .rNone) :=
  c6_timeout_amended.2.1 { Editor.initEditor with pending := [100] } 1 1 []
    (by decide) (by decide) (by decide) (by decide)

/-! ### C2: undo and redo around a single discrete edit -/

/-- The cursor invariant of the claims: the row indexes a line and the
column does not exceed that line's display width. -/
def cursorInv (e : Editor) : Prop :=
  e.cy < e.buf.lineCount ∧ e.cx ≤ e.buf.lineWidth e.cy

instance (e : Editor) : Decidable (cursorInv e) := by
  unfold cursorInv
  infer_instance

theorem fromString_of_noCR (t : List Nat) (h : 13 ∉ t) : Buffer.fromString t = ⟨t⟩ := by
  simp only [Buffer.fromString, Buffer.mk.injEq]
  apply List.filter_eq_self.mpr
  intro a ha
  simp
  intro h13
  exact h (h13 ▸ ha)

theorem clampCursor_of_inv (e : Editor) (h : cursorInv e) : clampCursor e = e := by
  obtain ⟨h1, h2⟩ := h
  have hy : min e.cy (e.buf.lineCount - 1) = e.cy := by omega
  have hx : min e.cx (e.buf.lineWidth e.cy) = e.cx := Nat.min_eq_left h2
  simp [clampCursor, hy, hx]

/-- A single discrete edit, in the sense of the claim: one public
editing operation that opens its own undo step. -/
inductive Edit
  | insCh (c : Nat) | insNl | delCh | delLine | delUnder | openBelow | openAbove

/-- Application of a single discrete edit to the editor. -/
def applyEdit : Edit → Editor → Editor
  | .insCh c, e => Editor.insertChar c e
  | .insNl, e => Editor.insertNewline e
  | .delCh, e => Editor.deleteChar e
  | .delLine, e => applyAction Action.deleteLine e
  | .delUnder, e => applyAction Action.deleteCharUnder e
  | .openBelow, e => applyAction Action.openBelow e
  | .openAbove, e => applyAction Action.openAbove e

/-- The edit does not type a carriage return (which the app layer never
feeds; from_string would strip it on undo). -/
def editNoCR : Edit → Prop
  | .insCh c => c ≠ 13
  | _ => True

instance (ed : Edit) : Decidable (editNoCR ed) := by
  cases ed <;> simp only [editNoCR] <;> infer_instance

theorem onEditStart_fresh (e : Editor) (hc : e.countGroupActive = false)
    (hg : e.mode = Mode.insert → e.undoGroupActive = false) :
    onEditStart e = { e with undoStack := snapOf e :: e.undoStack, redoStack := [],
                             undoGroupActive := decide (e.mode = Mode.insert) } := by
  by_cases hm : e.mode = Mode.insert
  · simp [onEditStart, hc, hm, hg hm]
  · simp [onEditStart, hc, hm]

theorem applyEdit_stacks (ed : Edit) (e : Editor)
    (hc : e.countGroupActive = false)
    (hg : e.mode = Mode.insert → e.undoGroupActive = false) :
    (applyEdit ed e).undoStack = snapOf e :: e.undoStack ∧
    (applyEdit ed e).redoStack = [] := by
  have hoe := onEditStart_fresh e hc hg
  cases ed <;>
    simp only [applyEdit, Editor.insertChar, Editor.insertNewline, Editor.deleteChar,
      applyAction, applyActionCore, clampCursor, hoe] <;>
    constructor <;>
    (repeat' split) <;> first | rfl | trivial

theorem noCR_take_drop (t : List Nat) (i j : Nat) (h : 13 ∉ t) :
    13 ∉ t.take i ++ t.drop j := by
  intro hm
  rcases List.mem_append.mp hm with hm | hm
  · exact h (List.mem_of_mem_take hm)
  · exact h (List.mem_of_mem_drop hm)

theorem noCR_insertAt (t : List Nat) (i c : Nat) (h : 13 ∉ t) (hcr : c ≠ 13) :
    13 ∉ Buffer.insertAt i c t := by
  intro hm
  simp only [Buffer.insertAt, List.mem_append, List.mem_cons] at hm
  rcases hm with hm | hm | hm
  · exact h (List.mem_of_mem_take hm)
  · exact hcr hm.symm
  · exact h (List.mem_of_mem_drop hm)

theorem applyEdit_noCR (ed : Edit) (e : Editor) (h13 : 13 ∉ e.buf.text)
    (hed : editNoCR ed) : 13 ∉ (applyEdit ed e).buf.text := by
  have h1 : ∀ e1 : Editor, e1.buf = e.buf → 13 ∉ (onEditStart e1).buf.text := by
    intro e1 he1
    simp only [onEditStart]
    split
    · rw [he1]; exact h13
    · split
      · split
        · rw [he1]; exact h13
        · simp only []; rw [he1]; exact h13
      · simp only []; rw [he1]; exact h13
  have hself := h1 e rfl
  cases ed with
  | insCh c =>
    simp only [applyEdit, Editor.insertChar, Buffer.insertChar]
    exact noCR_insertAt _ _ _ hself (hed : c ≠ 13)
  | insNl =>
    simp only [applyEdit, Editor.insertNewline, Buffer.insertNewline]
    exact noCR_insertAt _ _ _ hself (by decide)
  | delCh =>
    simp only [applyEdit, Editor.deleteChar]
    split
    · simp only [Buffer.deletePrev]
      split
      · exact hself
      · split
        · exact noCR_take_drop _ _ _ hself
        · exact hself
    · split
      · simp only [Buffer.mergeUp]
        split
        · exact hself
        · split
          · exact noCR_take_drop _ _ _ hself
          · exact hself
      · exact hself
  | delLine =>
    simp only [applyEdit, applyAction, applyActionCore, clampCursor]
    split
    · simp only [Buffer.deleteLine]
      split
      · exact noCR_take_drop _ _ _ hself
      · exact hself
    · exact hself
  | delUnder =>
    simp only [applyEdit, applyAction, applyActionCore, clampCursor, Buffer.deleteAt]
    split
    · exact hself
    · split
      · exact noCR_take_drop _ _ _ hself
      · exact hself
  | openBelow =>
    simp only [applyEdit, applyAction, applyActionCore, clampCursor, Buffer.insertNewline]
    exact noCR_insertAt _ _ _ hself (by decide)
  | openAbove =>
    simp only [applyEdit, applyAction, applyActionCore, clampCursor, Buffer.insertNewline]
    exact noCR_insertAt _ _ _ hself (by decide)

theorem clampCursor_cy_of (e : Editor) (h1 : e.cy < e.buf.lineCount) :
    (clampCursor e).cy = e.cy := by
  simp only [clampCursor]
  omega

theorem clampCursor_cx_of (e : Editor) (h1 : e.cy < e.buf.lineCount)
    (h2 : e.cx ≤ e.buf.lineWidth e.cy) : (clampCursor e).cx = e.cx := by
  have hy : min e.cy (e.buf.lineCount - 1) = e.cy := by omega
  simp only [clampCursor, hy]
  omega

theorem undo_cons (e : Editor) (prev : EditorSnapshot) (rest : List EditorSnapshot)
    (h : e.undoStack = prev :: rest) :
    undo e = (clampCursor
      { e with redoStack := snapOf e :: e.redoStack,
               buf := Buffer.fromString prev.text,
               cx := prev.cx, cy := prev.cy,
               undoStack := rest, undoGroupActive := false }, true) := by
  unfold undo
  rw [h]

theorem redo_cons (e : Editor) (nxt : EditorSnapshot) (rest : List EditorSnapshot)
    (h : e.redoStack = nxt :: rest) :
    redo e = (clampCursor
      { e with undoStack := snapOf e :: e.undoStack,
               buf := Buffer.fromString nxt.text,
               cx := nxt.cx, cy := nxt.cy,
               redoStack := rest, undoGroupActive := false }, true) := by
  unfold redo
  rw [h]

theorem undo_redo_roundtrip (e e1 : Editor)
    (hstack : e1.undoStack = snapOf e :: e.undoStack)
    (h13 : 13 ∉ e.buf.text) (h13b : 13 ∉ e1.buf.text)
    (hinv : cursorInv e) :
    (undo e1).2 = true ∧
    (undo e1).1.buf.text = e.buf.text ∧
    (undo e1).1.cx = e.cx ∧ (undo e1).1.cy = e.cy ∧
    (undo e1).1.mode = e1.mode ∧
    (redo (undo e1).1).2 = true ∧
    (redo (undo e1).1).1.buf.text = e1.buf.text ∧
    (redo (undo e1).1).1.mode = (undo e1).1.mode ∧
    (cursorInv e1 →
      (redo (undo e1).1).1.cx = e1.cx ∧ (redo (undo e1).1).1.cy = e1.cy) := by
  have hu := undo_cons e1 (snapOf e) e.undoStack hstack
  rw [show (snapOf e).text = e.buf.text from rfl, fromString_of_noCR _ h13] at hu
  have hUinv : cursorInv
      ({ e1 with redoStack := snapOf e1 :: e1.redoStack,
                 buf := ⟨e.buf.text⟩, cx := (snapOf e).cx, cy := (snapOf e).cy,
                 undoStack := e.undoStack, undoGroupActive := false } : Editor) :=
    ⟨hinv.1, hinv.2⟩
  rw [clampCursor_of_inv _ hUinv] at hu
  have hrr := redo_cons
    ({ e1 with redoStack := snapOf e1 :: e1.redoStack,
               buf := ⟨e.buf.text⟩, cx := (snapOf e).cx, cy := (snapOf e).cy,
               undoStack := e.undoStack, undoGroupActive := false } : Editor)
    (snapOf e1) e1.redoStack rfl
  rw [show (snapOf e1).text = e1.buf.text from rfl, fromString_of_noCR _ h13b] at hrr
  rw [hu]
  refine ⟨rfl, rfl, rfl, rfl, rfl, ?_, ?_, ?_, ?_⟩
  · rw [hrr]
  · rw [hrr]
    simp [clampCursor]
  · rw [hrr]
    simp [clampCursor]
  · intro hinv1
    rw [hrr]
    exact ⟨clampCursor_cx_of _ hinv1.1 hinv1.2, clampCursor_cy_of _ hinv1.1⟩

/-- The states used to refute C2: an insert-mode state mid-group, and a
state whose (stale) column exceeds the line width. -/
def c2stateA : Editor :=
  { Editor.initEditor with
      buf := ⟨[120]⟩, cx := 1, mode := Mode.insert,
      undoGroupActive := true, undoStack := [⟨[], 0, 0, Mode.insert⟩] }

def c2stateB : Editor :=
  { Editor.initEditor with buf := ⟨[97, 98, 99, 10, 122]⟩, cx := 3, cy := 1 }

/-- Counterexample to C2 as stated: (a) in Insert mode with an undo
group already active, an insert_char does not snapshot, so undo after
the edit restores the group start, not the pre-edit text; (b) undo
clamps the restored cursor, so a pre-edit cursor whose column exceeded
the restored line's width is not restored exactly. -/
theorem c2_counterexample :
    ((undo (Editor.insertChar 97 c2stateA)).1.buf.text = [] ∧
     ¬(undo (Editor.insertChar 97 c2stateA)).1.buf.text = c2stateA.buf.text) ∧
    ((undo (Editor.insertChar 113 c2stateB)).1.buf.text = c2stateB.buf.text ∧
     (undo (Editor.insertChar 113 c2stateB)).1.cy = 1 ∧
     (undo (Editor.insertChar 113 c2stateB)).1.cx = 1 ∧
     ¬(undo (Editor.insertChar 113 c2stateB)).1.cx = c2stateB.cx) := by
  decide

/-- C2 amended: for every editor state satisfying the cursor invariant
in which the edit opens a fresh undo group (count grouping inactive and,
in Insert mode, no group already active), and whose text the edit keeps
free of carriage returns, a single discrete edit followed by undo()
restores the pre-edit document text and cursor exactly, and a subsequent
redo() restores the post-edit document text (and the post-edit cursor
exactly when it satisfies the invariant, clamped otherwise); both undo()
and redo() preserve the current mode rather than restoring the
snapshot's mode. -/
theorem c2_undo_redo_amended (ed : Edit) (e : Editor)
    (hinv : cursorInv e)
    (hc : e.countGroupActive = false)
    (hg : e.mode = Mode.insert → e.undoGroupActive = false)
    (h13 : 13 ∉ e.buf.text)
    (hed : editNoCR ed) :
    (undo (applyEdit ed e)).2 = true ∧
    (undo (applyEdit ed e)).1.buf.text = e.buf.text ∧
    (undo (applyEdit ed e)).1.cx = e.cx ∧
    (undo (applyEdit ed e)).1.cy = e.cy ∧
    (undo (applyEdit ed e)).1.mode = (applyEdit ed e).mode ∧
    (redo (undo (applyEdit ed e)).1).2 = true ∧
    (redo (undo (applyEdit ed e)).1).1.buf.text = (applyEdit ed e).buf.text ∧
    (redo (undo (applyEdit ed e)).1).1.mode = (undo (applyEdit ed e)).1.mode ∧
    (cursorInv (applyEdit ed e) →
      (redo (undo (applyEdit ed e)).1).1.cx = (applyEdit ed e).cx ∧
      (redo (undo (applyEdit ed e)).1).1.cy = (applyEdit ed e).cy) := by
  obtain ⟨hstack, hredo⟩ := applyEdit_stacks ed e hc hg
  exact undo_redo_roundtrip e (applyEdit ed e) hstack h13
    (applyEdit_noCR ed e h13 hed) hinv

/-- Witness for C2 amended: typing b into the one-line buffer a. -/
theorem c2_witness :
    (undo (applyEdit (Edit.insCh 98) { Editor.initEditor with buf := ⟨[97]⟩, cx := 1 })).2
        = true ∧
    (undo (applyEdit (Edit.insCh 98)
        { Editor.initEditor with buf := ⟨[97]⟩, cx := 1 })).1.buf.text =
      ({ Editor.initEditor with buf := ⟨[97]⟩, cx := 1 } : Editor).buf.text ∧
    (undo (applyEdit (Edit.insCh 98)
        { Editor.initEditor with buf := ⟨[97]⟩, cx := 1 })).1.cx = 1 ∧
    (undo (applyEdit (Edit.insCh 98)
        { Editor.initEditor with buf := ⟨[97]⟩, cx := 1 })).1.cy = 0 ∧
    (undo (applyEdit (Edit.insCh 98)
        { Editor.initEditor with buf := ⟨[97]⟩, cx := 1 })).1.mode =
      (applyEdit (Edit.insCh 98) { Editor.initEditor with buf := ⟨[97]⟩, cx := 1 }).mode ∧
    (redo (undo (applyEdit (Edit.insCh 98)
        { Editor.initEditor with buf := ⟨[97]⟩, cx := 1 })).1).2 = true ∧
    (redo (undo (applyEdit (Edit.insCh 98)
        { Editor.initEditor with buf := ⟨[97]⟩, cx := 1 })).1).1.buf.text =
      (applyEdit (Edit.insCh 98) { Editor.initEditor with buf := ⟨[97]⟩, cx := 1 }).buf.text ∧
    (redo (undo (applyEdit (Edit.insCh 98)
        { Editor.initEditor with buf := ⟨[97]⟩, cx := 1 })).1).1.mode =
      (undo (applyEdit (Edit.insCh 98)
        { Editor.initEditor with buf := ⟨[97]⟩, cx := 1 })).1.mode ∧
    (cursorInv (applyEdit (Edit.insCh 98) { Editor.initEditor with buf := ⟨[97]⟩, cx := 1 }) →
      (redo (undo (applyEdit (Edit.insCh 98)
          { Editor.initEditor with buf := ⟨[97]⟩, cx := 1 })).1).1.cx =
        (applyEdit (Edit.insCh 98) { Editor.initEditor with buf := ⟨[97]⟩, cx := 1 }).cx ∧
      (redo (undo (applyEdit (Edit.insCh 98)
          { Editor.initEditor with buf := ⟨[97]⟩, cx := 1 })).1).1.cy =
        (applyEdit (Edit.insCh 98) { Editor.initEditor with buf := ⟨[97]⟩, cx := 1 }).cy) := by
  have h := c2_undo_redo_amended (Edit.insCh 98)
    { Editor.initEditor with buf := ⟨[97]⟩, cx := 1 }
    (by decide) (by decide) (by decide) (by decide) (by decide)
  simpa using h
  -- The cursor equalities instantiate to the concrete values 1 and 0.

/-- Witness for C5 amended at a concrete buffer, row and column. -/
theorem c5_witness :
    (Buffer.mk [97, 10, 98]).insertCharQ 7 1 99 =
      some ((Buffer.mk [97, 10, 98]).insertChar 7 1 99) ∧
    (Buffer.mk [97, 10, 98]).insertNewlineQ 7 1 =
      some ((Buffer.mk [97, 10, 98]).insertNewline 7 1) ∧
    (Buffer.mk [97, 10, 98]).charIndexAtColQ 1 7 =
      some ((Buffer.mk [97, 10, 98]).charIndexAtCol 1 7) ∧
    (Buffer.mk [97, 10, 98]).charIndexAtCol 1 7 ≤ (Buffer.mk [97, 10, 98]).text.length :=
  c5_buffer_totality_amended (Buffer.mk [97, 10, 98]) 1 7 99 (by decide)

/-! ### C3: the dd line-delete shorthand -/

theorem splitNl_drop_one (t : List Nat) (h : 1 < (splitNl t).length) :
    splitNl (t.drop (lineStart t 1)) = (splitNl t).tail := by
  induction t with
  | nil => simp [splitNl_nil] at h
  | cons c t ih =>
    by_cases hc : c = 10
    · subst hc
      simp [lineStart, splitNl_cons_nl]
    · have h1 : 1 < (splitNl t).length := by
        rw [splitNl_cons_ne c t hc] at h
        rcases hs : splitNl t with _ | ⟨a, r⟩
        · exact absurd hs (splitNl_ne_nil t)
        · rw [hs] at h
          simp only [List.tail_cons, List.length_cons] at h ⊢
          omega
      have hls : lineStart (c :: t) 1 = lineStart t 1 + 1 := by
        simp [lineStart, hc]
        omega
      rw [hls, List.drop_succ_cons, splitNl_cons_ne c t hc, List.tail_cons]
      exact ih h1

theorem splitNl_delete_mid (t : List Nat) : ∀ y : Nat, y + 1 < (splitNl t).length →
    splitNl (t.take (lineStart t y) ++ t.drop (lineStart t (y + 1))) =
      (splitNl t).take y ++ (splitNl t).drop (y + 1) := by
  induction t with
  | nil => intro y h; simp [splitNl_nil] at h
  | cons c t ih =>
    intro y h
    match y with
    | 0 =>
      have h1 : 1 < (splitNl (c :: t)).length := by omega
      have hd := splitNl_drop_one (c :: t) h1
      show splitNl ((c :: t).take 0 ++ (c :: t).drop (lineStart (c :: t) 1)) =
        (splitNl (c :: t)).take 0 ++ (splitNl (c :: t)).drop 1
      simp only [List.take_zero, List.nil_append]
      rw [hd, List.drop_one]
    | y + 1 =>
      by_cases hc : c = 10
      · subst hc
        have hls1 : lineStart (10 :: t) (y + 1) = lineStart t y + 1 := by
          simp [lineStart]
          omega
        have hls2 : lineStart (10 :: t) (y + 1 + 1) = lineStart t (y + 1) + 1 := by
          simp [lineStart]
          omega
        have hlen : y + 1 < (splitNl t).length := by
          rw [splitNl_cons_nl] at h
          simp only [List.length_cons] at h
          omega
        rw [hls1, hls2]
        simp only [List.take_succ_cons, List.drop_succ_cons, List.cons_append,
          splitNl_cons_nl, ih y hlen]
      · rcases hs : splitNl t with _ | ⟨a, r⟩
        · exact absurd hs (splitNl_ne_nil t)
        · have hls1 : lineStart (c :: t) (y + 1) = lineStart t (y + 1) + 1 := by
            simp [lineStart, hc]
            omega
          have hls2 : lineStart (c :: t) (y + 1 + 1) = lineStart t (y + 1 + 1) + 1 := by
            simp [lineStart, hc]
            omega
          have hlen : y + 1 + 1 < (splitNl t).length := by
            rw [splitNl_cons_ne c t hc, hs] at h
            rw [hs]
            simp only [List.tail_cons, List.length_cons] at h ⊢
            omega
          have hih := ih (y + 1) hlen
          rw [hls1, hls2, List.take_succ_cons, List.drop_succ_cons, List.cons_append,
            splitNl_cons_ne c (t.take (lineStart t (y + 1)) ++ t.drop (lineStart t (y + 1 + 1))) hc,
            hih, splitNl_cons_ne c t hc, hs]
          simp [List.take_succ_cons, List.drop_succ_cons]

theorem splitNl_take_last (t : List Nat) : ∀ y : Nat, y + 1 = (splitNl t).length →
    splitNl (t.take (lineStart t y)) = (splitNl t).take y ++ [[]] := by
  induction t with
  | nil =>
    intro y h
    simp only [splitNl_nil, List.length_cons, List.length_nil] at h
    have : y = 0 := by omega
    subst this
    simp [splitNl_nil, lineStart]
  | cons c t ih =>
    intro y h
    match y with
    | 0 => simp [lineStart, splitNl_nil]
    | y + 1 =>
      by_cases hc : c = 10
      · subst hc
        have hls : lineStart (10 :: t) (y + 1) = lineStart t y + 1 := by
          simp [lineStart]
          omega
        have hlen : y + 1 = (splitNl t).length := by
          rw [splitNl_cons_nl] at h
          simp only [List.length_cons] at h
          omega
        rw [hls]
        simp only [List.take_succ_cons, splitNl_cons_nl, ih y hlen, List.cons_append]
      · rcases hs : splitNl t with _ | ⟨a, r⟩
        · exact absurd hs (splitNl_ne_nil t)
        · have hls : lineStart (c :: t) (y + 1) = lineStart t (y + 1) + 1 := by
            simp [lineStart, hc]
            omega
          have hlen : y + 1 + 1 = (splitNl t).length := by
            rw [splitNl_cons_ne c t hc, hs] at h
            rw [hs]
            simp only [List.tail_cons, List.length_cons] at h ⊢
            omega
          have hih := ih (y + 1) hlen
          rw [hls, List.take_succ_cons,
            splitNl_cons_ne c (t.take (lineStart t (y + 1))) hc,
            hih, splitNl_cons_ne c t hc, hs]
          simp [List.take_succ_cons]

theorem deleteLine_mid (b : Buffer) (y : Nat) (h : y + 1 < b.lineCount) :
    splitNl (b.deleteLine y).text =
      (splitNl b.text).take y ++ (splitNl b.text).drop (y + 1) := by
  have hy : y < b.lineCount := by omega
  simp only [Buffer.deleteLine, if_pos hy, if_pos h]
  exact splitNl_delete_mid b.text y (by simpa [Buffer.lineCount] using h)

theorem deleteLine_last (b : Buffer) (y : Nat) (h : y + 1 = b.lineCount) :
    splitNl (b.deleteLine y).text = (splitNl b.text).take y ++ [[]] := by
  have hy : y < b.lineCount := by omega
  have hn : ¬ y + 1 < b.lineCount := by omega
  simp only [Buffer.deleteLine, if_pos hy, if_neg hn]
  rw [List.drop_length, List.append_nil]
  exact splitNl_take_last b.text y (by simpa [Buffer.lineCount] using h)

theorem delLines_lines (k : Nat) : ∀ (b : Buffer) (sy : Nat),
    sy < b.lineCount → sy + k ≤ b.lineCount →
    splitNl ((List.range k).foldl (fun (bb : Buffer) _ => bb.deleteLine sy) b).text =
      if sy + k < b.lineCount
        then (splitNl b.text).take sy ++ (splitNl b.text).drop (sy + k)
        else (splitNl b.text).take sy ++ [[]] := by
  induction k with
  | zero =>
    intro b sy h1 h2
    simp only [List.range_zero, List.foldl_nil]
    rw [if_pos (by omega), Nat.add_zero, List.take_append_drop]
  | succ k ih =>
    intro b sy h1 h2
    rw [List.range_succ, List.foldl_append, List.foldl_cons, List.foldl_nil]
    have hik := ih b sy h1 (by omega)
    have hlt : sy + k < b.lineCount := by omega
    rw [if_pos hlt] at hik
    have hsy : sy ≤ (splitNl b.text).length := by
      simp only [Buffer.lineCount] at h1
      omega
    have hlenA : ((splitNl b.text).take sy).length = sy := by
      simp only [List.length_take]
      omega
    have hlen : ((List.range k).foldl (fun (bb : Buffer) _ =>
        bb.deleteLine sy) b).lineCount = b.lineCount - k := by
      simp only [Buffer.lineCount] at hlt ⊢
      rw [hik]
      simp only [List.length_append, List.length_take, List.length_drop]
      omega
    by_cases hmid : sy + (k + 1) < b.lineCount
    · rw [if_pos hmid]
      have hbkmid : sy + 1 <
          ((List.range k).foldl (fun (bb : Buffer) _ => bb.deleteLine sy) b).lineCount := by
        omega
      rw [deleteLine_mid _ sy hbkmid, hik,
        List.take_append_of_le_length (by omega), List.take_take,
        List.drop_append_eq_append_drop, List.drop_drop, hlenA,
        List.drop_eq_nil_of_le (by omega), List.nil_append]
      have h1' : min sy sy = sy := by omega
      have h2' : sy + 1 - sy = 1 := by omega
      have h3' : sy + k + 1 = sy + (k + 1) := by omega
      rw [h1', h2', h3']
    · rw [if_neg hmid]
      have hbklast : sy + 1 =
          ((List.range k).foldl (fun (bb : Buffer) _ => bb.deleteLine sy) b).lineCount := by
        omega
      rw [deleteLine_last _ sy hbklast, hik,
        List.take_append_of_le_length (by omega), List.take_take]
      have h1' : min sy sy = sy := by omega
      rw [h1']

theorem onEditStart_view (e : Editor) :
    (onEditStart e).buf = e.buf ∧ (onEditStart e).cy = e.cy ∧
    (onEditStart e).cx = e.cx ∧ (onEditStart e).mode = e.mode := by
  unfold onEditStart
  repeat' split
  all_goals exact ⟨rfl, rfl, rfl, rfl⟩

theorem rangeMap_lineString (b : Buffer) (k sy : Nat) (h : sy + k ≤ b.lineCount) :
    (List.range k).map (fun i => b.lineString (sy + i)) =
      ((splitNl b.text).drop sy).take k := by
  have hl : sy + k ≤ (splitNl b.text).length := by
    simpa [Buffer.lineCount] using h
  apply List.ext_getElem
  · simp only [List.length_map, List.length_range, List.length_take, List.length_drop]
    omega
  · intro i h1 h2
    simp only [List.getElem_map, List.getElem_range, List.getElem_take, List.getElem_drop]
    have hib : sy + i < (splitNl b.text).length := by
      simp only [List.length_map, List.length_range] at h1
      omega
    rw [Buffer.lineString, List.getD_eq_getElem _ _ hib]

/-- The five-line document of the dd scenario, cursor on row 1. -/
def c3doc : Editor :=
  { Editor.initEditor with
      buf := ⟨joinNl [[108, 49], [108, 50], [108, 51], [108, 52], [108, 53]]⟩,
      cy := 1 }

/-- A three-line document a, b, c with the cursor on row 1. -/
def c3short : Editor :=
  { Editor.initEditor with
      buf := ⟨joinNl [[97], [98], [99]]⟩,
      cy := 1 }

/-- Feeding a sequence of characters through process_normal_char. -/
def c3feed : List Nat → Editor → Option Editor
  | [], e => some e
  | c :: r, e =>
    match processNormalChar c e with
    | none => none
    | some p => c3feed r p.1

/-- The state after feeding 2 to the three-line document. -/
def c3short1 : Editor := { c3short with pending := [50], pendingStarted := true }

/-- The state after feeding 2 d to the three-line document. -/
def c3short2 : Editor :=
  { c3short with opPending := some (Action.operatorDelete, 2), pendingStarted := true }

/-- The state after feeding 3 to the five-line document. -/
def c3doc1 : Editor := { c3doc with pending := [51], pendingStarted := true }

/-- The state after feeding 3 d to the five-line document. -/
def c3doc2 : Editor :=
  { c3doc with opPending := some (Action.operatorDelete, 3), pendingStarted := true }

theorem c3short_feed :
    c3feed [50, 100, 100] c3short =
      some { deleteNLines 2 { c3short2 with pending := [100], opPending := none }
               with pending := [], pendingStarted := false } := by
  have h1 : processNormalChar 50 c3short = some (c3short1, .rNone) := by decide
  have h2 : processNormalChar 100 c3short1 = some (c3short2, .rNone) := by decide
  have h3 : processNormalChar 100 c3short2 =
      some ({ applyActionCount Action.deleteLine 2
                  { c3short2 with pending := [100], opPending := none }
                with pending := [], pendingStarted := false }, .rNone) := rfl
  have h4 : applyActionCount Action.deleteLine 2
        { c3short2 with pending := [100], opPending := none } =
      deleteNLines 2 { c3short2 with pending := [100], opPending := none } := by
    simp only [applyActionCount]
    rfl
  simp only [c3feed, h1, h2, h3, h4]

theorem c3doc_feed :
    c3feed [51, 100, 100] c3doc =
      some { deleteNLines 3 { c3doc2 with pending := [100], opPending := none }
               with pending := [], pendingStarted := false } := by
  have h1 : processNormalChar 51 c3doc = some (c3doc1, .rNone) := by decide
  have h2 : processNormalChar 100 c3doc1 = some (c3doc2, .rNone) := by decide
  have h3 : processNormalChar 100 c3doc2 =
      some ({ applyActionCount Action.deleteLine 3
                  { c3doc2 with pending := [100], opPending := none }
                with pending := [], pendingStarted := false }, .rNone) := rfl
  have h4 : applyActionCount Action.deleteLine 3
        { c3doc2 with pending := [100], opPending := none } =
      deleteNLines 3 { c3doc2 with pending := [100], opPending := none } := by
    simp only [applyActionCount]
    rfl
  simp only [c3feed, h1, h2, h3, h4]

/-- C3 counterexample: feeding the keys 2 d d to the three-line document
a, b, c with the cursor on row 1 does not simply delete the two lines
b and c as the claim describes -- because delete_line on the final line
keeps the preceding newline, a trailing empty line remains, so the result
is the two lines a, empty rather than the single line a (the clipboard
and cursor do match the claim). -/
theorem c3_counterexample :
    (c3feed [50, 100, 100] c3short).map
        (fun r => (splitNl r.buf.text, r.clipboard, r.clipboardKind, r.cy, r.cx)) =
      some ([[97], []], [98, 10, 99], ClipboardKind.linewise, 1, 0) ∧
    ¬ (c3feed [50, 100, 100] c3short).map (fun r => splitNl r.buf.text) = some [[97]] := by
  rw [c3short_feed]
  decide

/-- C3 amended: the dd shorthand with count n, from a cursor row that is
in range, removes lines cy .. cy+n-1 when more lines follow; when the
range reaches the last line it removes those lines but leaves a trailing
empty line in their place (the newline preceding the deleted block
survives).  The clipboard receives exactly the clamped block of n lines
joined with newlines, with Linewise kind; the cursor moves to column 0
of the unchanged row index; the mode is unchanged.  The concrete
scenario: 3 d d on the five-line document l1..l5 at row 1 yields the
lines l1, l5; undo restores all five lines; redo returns to l1, l5. -/
theorem c3_delete_n_lines_amended (n : Nat) (e : Editor)
    (hn : 1 ≤ n) (hcy : e.cy < e.buf.lineCount) :
    (splitNl (deleteNLines n e).buf.text =
      if e.cy + n < e.buf.lineCount
        then (splitNl e.buf.text).take e.cy ++ (splitNl e.buf.text).drop (e.cy + n)
        else (splitNl e.buf.text).take e.cy ++ [[]]) ∧
    (deleteNLines n e).clipboard =
      joinNl (((splitNl e.buf.text).drop e.cy).take (min n (e.buf.lineCount - e.cy))) ∧
    (deleteNLines n e).clipboardKind = ClipboardKind.linewise ∧
    (deleteNLines n e).cy = e.cy ∧
    (deleteNLines n e).cx = 0 ∧
    (deleteNLines n e).mode = e.mode ∧
    (c3feed [51, 100, 100] c3doc).map (fun r =>
        (splitNl r.buf.text, splitNl (undo r).1.buf.text,
         splitNl (redo (undo r).1).1.buf.text,
         r.clipboard, r.clipboardKind, r.cy, r.cx)) =
      some ([[108, 49], [108, 53]],
            [[108, 49], [108, 50], [108, 51], [108, 52], [108, 53]],
            [[108, 49], [108, 53]],
            [108, 50, 10, 108, 51, 10, 108, 52], ClipboardKind.linewise, 1, 0) := by
  have hscen : (c3feed [51, 100, 100] c3doc).map (fun r =>
      (splitNl r.buf.text, splitNl (undo r).1.buf.text,
       splitNl (redo (undo r).1).1.buf.text,
       r.clipboard, r.clipboardKind, r.cy, r.cx)) =
      some ([[108, 49], [108, 53]],
            [[108, 49], [108, 50], [108, 51], [108, 52], [108, 53]],
            [[108, 49], [108, 53]],
            [108, 50, 10, 108, 51, 10, 108, 52], ClipboardKind.linewise, 1, 0) := by
    rw [c3doc_feed]
    rfl
  obtain ⟨hb, hy, hx, hm⟩ := onEditStart_view e
  have hpos := Buffer.lineCount_pos e.buf
  have hne : ¬ e.buf.lineCount = 0 := by omega
  simp only [deleteNLines, if_neg hne, hb, hy, hm]
  have hk : min (e.cy + n - 1) (e.buf.lineCount - 1) + 1 - e.cy
      = min n (e.buf.lineCount - e.cy) := by omega
  rw [hk]
  set k := min n (e.buf.lineCount - e.cy) with hkdef
  have hkle : e.cy + k ≤ e.buf.lineCount := by omega
  have hlines := delLines_lines k e.buf e.cy hcy hkle
  have hcy' : e.cy < (splitNl e.buf.text).length := by
    simpa [Buffer.lineCount] using hcy
  have hbl : e.cy < ((List.range k).foldl (fun (b : Buffer) _ =>
      b.deleteLine e.cy) e.buf).lineCount := by
    simp only [Buffer.lineCount]
    rw [hlines]
    by_cases hc2 : e.cy + k < e.buf.lineCount
    · rw [if_pos hc2]
      simp only [Buffer.lineCount] at hc2
      simp only [List.length_append, List.length_take, List.length_drop]
      omega
    · rw [if_neg hc2]
      simp only [List.length_append, List.length_take, List.length_cons,
        List.length_nil]
      omega
  refine ⟨?_, ?_, by trivial, ?_, by trivial, by trivial, hscen⟩
  · rw [hlines]
    by_cases hcn : e.cy + n < e.buf.lineCount
    · have hkn : k = n := by omega
      rw [if_pos (by omega : e.cy + k < e.buf.lineCount), if_pos hcn, hkn]
    · rw [if_neg (by omega : ¬ e.cy + k < e.buf.lineCount), if_neg hcn]
  · rw [rangeMap_lineString e.buf k e.cy hkle]
  · rw [if_neg (by omega)]

/-- Witness for C3 amended: 2 d d from row 1 of the three-line document. -/
theorem c3_witness :
    (splitNl (deleteNLines 2 c3short).buf.text =
      if c3short.cy + 2 < c3short.buf.lineCount
        then (splitNl c3short.buf.text).take c3short.cy ++
          (splitNl c3short.buf.text).drop (c3short.cy + 2)
        else (splitNl c3short.buf.text).take c3short.cy ++ [[]]) ∧
    (deleteNLines 2 c3short).clipboard =
      joinNl (((splitNl c3short.buf.text).drop c3short.cy).take
        (min 2 (c3short.buf.lineCount - c3short.cy))) ∧
    (deleteNLines 2 c3short).cy = c3short.cy ∧
    (deleteNLines 2 c3short).cx = 0 := by
  have h := c3_delete_n_lines_amended 2 c3short (by decide) (by decide)
  exact ⟨h.1, h.2.1, h.2.2.2.1, h.2.2.2.2.1⟩

/-! ### C1: the cursor invariant across public operations -/

theorem count_insertAt (i c a : Nat) (t : List Nat) :
    (Buffer.insertAt i c t).count a = t.count a + (if c = a then 1 else 0) := by
  simp only [Buffer.insertAt]
  rw [List.count_append, List.count_cons]
  conv_rhs => rw [← List.take_append_drop i t, List.count_append]
  by_cases h : c = a <;> simp [h] <;> omega

theorem lineCount_insertAt (b : Buffer) (i c : Nat) :
    (Buffer.mk (Buffer.insertAt i c b.text)).lineCount =
      b.lineCount + (if c = 10 then 1 else 0) := by
  simp only [Buffer.lineCount, splitNl_length, count_insertAt]
  omega

theorem clampCursor_inv (e : Editor) : cursorInv (clampCursor e) := by
  have h := Buffer.lineCount_pos e.buf
  refine ⟨?_, ?_⟩
  · show min e.cy (e.buf.lineCount - 1) < e.buf.lineCount
    omega
  · exact Nat.min_le_right _ _

theorem applyAction_inv (a : Action) (e : Editor) : cursorInv (applyAction a e) := by
  simp only [applyAction]
  exact clampCursor_inv _

theorem applyN_inv (a : Action) (n : Nat) : ∀ e : Editor, cursorInv e →
    cursorInv (applyN a n e) := by
  induction n with
  | zero => intro e h; simpa [applyN] using h
  | succ m ih =>
    intro e h
    simp only [applyN]
    exact ih _ (applyAction_inv a e)

theorem applyN_pos_inv (a : Action) (n : Nat) (e : Editor) (h : 1 ≤ n) :
    cursorInv (applyN a n e) := by
  cases n with
  | zero => omega
  | succ m =>
    simp only [applyN]
    exact applyN_inv a m _ (applyAction_inv a e)

theorem deleteNLines_inv (n : Nat) (e : Editor) : cursorInv (deleteNLines n e) := by
  have hp := Buffer.lineCount_pos e.buf
  unfold deleteNLines
  rw [if_neg (by omega)]
  refine ⟨?_, Nat.zero_le _⟩
  have hb := Buffer.lineCount_pos ((List.range
    (min ((onEditStart e).cy + n - 1) ((onEditStart e).buf.lineCount - 1) + 1 -
      (onEditStart e).cy)).foldl
    (fun (b : Buffer) _ => b.deleteLine (onEditStart e).cy) (onEditStart e).buf)
  dsimp only
  split <;> omega

theorem applyActionCount_inv (a : Action) (c : Nat) (e : Editor) :
    cursorInv (applyActionCount a c e) := by
  simp only [applyActionCount]
  split
  · exact deleteNLines_inv _ _
  · exact applyN_pos_inv a (max c 1) _ (by omega)

theorem undo_inv (e : Editor) (h : cursorInv e) : cursorInv ((undo e).1) := by
  unfold undo
  split
  · exact h
  · exact clampCursor_inv _

theorem redo_inv (e : Editor) (h : cursorInv e) : cursorInv ((redo e).1) := by
  unfold redo
  split
  · exact h
  · exact clampCursor_inv _

theorem gotoLine_inv (n : Nat) (e : Editor) : cursorInv (gotoLine n e) := by
  unfold gotoLine
  split
  · exact ⟨Buffer.lineCount_pos _, Nat.zero_le _⟩
  · exact clampCursor_inv _

theorem insertNewline_inv (e : Editor) (h : cursorInv e) : cursorInv (insertNewline e) := by
  obtain ⟨hb, hy, hx, hm⟩ := onEditStart_view e
  obtain ⟨h1, h2⟩ := h
  refine ⟨?_, Nat.zero_le _⟩
  show (onEditStart e).cy + 1 <
    ((onEditStart e).buf.insertNewline (onEditStart e).cx (onEditStart e).cy).lineCount
  rw [hb, hy]
  unfold Buffer.insertNewline
  rw [lineCount_insertAt]
  have h10 : (if (10 : Nat) = 10 then 1 else 0) = 1 := by simp
  omega

theorem insertChar_row (ch : Nat) (e : Editor) (h : e.cy < e.buf.lineCount) :
    (insertChar ch e).cy < (insertChar ch e).buf.lineCount := by
  obtain ⟨hb, hy, hx, hm⟩ := onEditStart_view e
  show (onEditStart e).cy <
    ((onEditStart e).buf.insertChar (onEditStart e).cx (onEditStart e).cy ch).lineCount
  rw [hb, hy]
  unfold Buffer.insertChar
  rw [lineCount_insertAt]
  omega

theorem visualYank_inv (e : Editor) (h : cursorInv e) : cursorInv (visualYank e) := by
  unfold visualYank
  repeat' split
  all_goals exact h

theorem exCommand_inv (cmd : List Nat) (e : Editor) (h : cursorInv e) :
    cursorInv (executeExCommand cmd e).1 := by
  have hp := Buffer.lineCount_pos e.buf
  unfold executeExCommand
  dsimp only
  repeat' split
  all_goals try dsimp only
  all_goals try exact h
  all_goals try exact clampCursor_inv _
  all_goals try exact ⟨by dsimp only; omega, Nat.zero_le _⟩
  all_goals
    rename_i e2 heq
    split at heq
    · split at heq
      · rw [Option.some.injEq] at heq
        subst heq
        exact clampCursor_inv _
      · exact absurd heq (by simp)
    · exact absurd heq (by simp)

theorem timeout_inv (e e1 : Editor) (r : NormalInputResult) (h : cursorInv e)
    (hp : processPendingTimeout e = some (e1, r)) : cursorInv e1 := by
  unfold processPendingTimeout at hp
  dsimp only at hp
  repeat' split at hp
  all_goals first
    | (rw [Option.some.injEq, Prod.mk.injEq] at hp
       obtain ⟨h1, h2⟩ := hp
       subst h1
       first | exact h | exact applyActionCount_inv _ _ _)
    | exact absurd hp (by simp)

/-- Reachable state A: in Insert mode type a b c, newline, tab; back in
the chain of motions the cursor lands on row 1 column 3; then the
double-width emoji U+1F604 is inserted. -/
def c1buildA : Editor :=
  insertChar 128516 (applyAction Action.moveDown (applyAction Action.lineEnd
    (applyAction Action.gotoTop (insertChar 9 (insertNewline
      (insertChar 99 (insertChar 98 (insertChar 97
        (applyAction Action.enterInsert Editor.initEditor)))))))))

/-- Reachable base state for the d-dollar and visual scenarios: document
a b c / z tab, Normal mode (visual toggled on and off), cursor at
row 1 column 3. -/
def c1base : Editor :=
  applyAction Action.moveDown (applyAction Action.lineEnd
    (applyAction Action.gotoTop (applyAction Action.enterVisual (applyAction Action.enterVisual
      (insertChar 9 (insertChar 122 (insertNewline
        (insertChar 99 (insertChar 98 (insertChar 97
          (applyAction Action.enterInsert Editor.initEditor)))))))))))

/-- The literal value of the base state. -/
def c1baseLit : Editor :=
  { Editor.initEditor with
      buf := ⟨[97, 98, 99, 10, 122, 9]⟩, dirty := true, cx := 3, cy := 1,
      undoStack := [⟨[], 0, 0, Mode.insert⟩], undoGroupActive := true }

/-- The base state after feeding d: the delete operator is pending. -/
def c1baseD : Editor :=
  { c1baseLit with opPending := some (Action.operatorDelete, 1), pendingStarted := true }

/-- The base state after entering Visual and moving to the line end. -/
def c1baseV : Editor := applyAction Action.lineEnd (applyAction Action.enterVisual c1base)

/-- C1 counterexample: the cursor invariant is not preserved by every
public operation.  From the reachable state A, insert_char advances the
column by the inserted scalar's display width without re-clamping,
leaving column 5 on a line of display width 4.  From the reachable base
state (row 1 column 3 of the document a b c / z tab), feeding d then
dollar runs the delete-to-line-end range operation, which sets the
column back to 3 while the row's new display width is 1, in Normal mode
with no clamp; visual_delete and visual_change from the corresponding
visual selection leave the same out-of-range column.  In all cases the
row half of the invariant still holds. -/
theorem c1_counterexample :
    (¬ cursorInv c1buildA ∧ c1buildA.cy < c1buildA.buf.lineCount ∧
      c1buildA.buf.lineWidth c1buildA.cy < c1buildA.cx) ∧
    (c1base = c1baseLit ∧ cursorInv c1base ∧ c1base.mode = Mode.normal ∧
      c1base.pending = [] ∧ c1base.opPending = none) ∧
    processNormalChar 100 c1baseLit = some (c1baseD, NormalInputResult.rNone) ∧
    (processNormalChar 36 c1baseD).map (fun p =>
        (p.1.buf.text, p.1.cx, p.1.cy, p.1.buf.lineWidth p.1.cy, p.1.mode, p.2)) =
      some ([97, 98, 99, 10, 122], 3, 1, 1, Mode.normal, NormalInputResult.rNone) ∧
    (¬ cursorInv (visualDelete c1baseV) ∧ (visualDelete c1baseV).mode = Mode.normal) ∧
    (¬ cursorInv (visualChange c1baseV) ∧ (visualChange c1baseV).mode = Mode.insert) := by
  have hbase : c1base = c1baseLit := by
    simp only [c1base, applyAction, applyActionCore]
    decide
  refine ⟨?_, ⟨hbase, ?_, ?_, ?_, ?_⟩, ?_, ?_, ?_, ?_⟩
  · simp only [c1buildA, applyAction, applyActionCore]
    decide
  · rw [hbase]; decide
  · rw [hbase]; decide
  · rw [hbase]; decide
  · rw [hbase]; decide
  · decide
  · have h36 : processNormalChar 36 c1baseD =
        some ({ applyMotion Action.lineEnd 1 (some (Action.operatorDelete, 1))
                  { c1baseD with pending := [36], opPending := none }
                with pending := [], pendingStarted := false }, .rNone) := rfl
    rw [h36]
    simp only [applyMotion]
    decide
  · constructor <;> (simp only [c1baseV, hbase, applyAction, applyActionCore]; decide)
  · constructor <;> (simp only [c1baseV, hbase, applyAction, applyActionCore]; decide)

/-- C1 amended: the cursor invariant (row < line_count and column not
exceeding the line's display width) is established unconditionally by
apply_action (every action ends in clamp_cursor), by apply_action_count,
by delete_n_lines and by goto_line; it is preserved by undo, redo,
insert_newline, visual_yank, execute_ex_command and
process_pending_timeout; and insert_char always preserves the row half.
It is not preserved by insert_char's column update, by operator range
deletes reached through process_normal_char, or by visual_delete and
visual_change, as the counterexample shows. -/
theorem c1_cursor_invariant_amended (a : Action) (cnt n : Nat) (cmd : List Nat)
    (ch : Nat) (e e1 : Editor) (r : NormalInputResult) :
    cursorInv (applyAction a e) ∧
    cursorInv (applyActionCount a cnt e) ∧
    cursorInv (deleteNLines n e) ∧
    cursorInv (gotoLine n e) ∧
    (cursorInv e → cursorInv ((undo e).1)) ∧
    (cursorInv e → cursorInv ((redo e).1)) ∧
    (cursorInv e → cursorInv (insertNewline e)) ∧
    (cursorInv e → cursorInv (visualYank e)) ∧
    (cursorInv e → cursorInv (executeExCommand cmd e).1) ∧
    (cursorInv e → processPendingTimeout e = some (e1, r) → cursorInv e1) ∧
    (e.cy < e.buf.lineCount → (insertChar ch e).cy < (insertChar ch e).buf.lineCount) :=
  ⟨applyAction_inv a e, applyActionCount_inv a cnt e, deleteNLines_inv n e,
   gotoLine_inv n e, undo_inv e, redo_inv e, insertNewline_inv e, visualYank_inv e,
   exCommand_inv cmd e, fun h hp => timeout_inv e e1 r h hp, insertChar_row ch e⟩

/-- Witness for C1 amended at concrete inputs, discharging every
hypothesis at the initial editor. -/
theorem c1_witness :
    cursorInv (applyAction Action.moveDown Editor.initEditor) ∧
    cursorInv ((undo Editor.initEditor).1) ∧
    cursorInv ((redo Editor.initEditor).1) ∧
    cursorInv (insertNewline Editor.initEditor) ∧
    cursorInv (visualYank Editor.initEditor) ∧
    cursorInv (executeExCommand [36] Editor.initEditor).1 ∧
    cursorInv Editor.initEditor ∧
    (insertChar 97 Editor.initEditor).cy <
      (insertChar 97 Editor.initEditor).buf.lineCount := by
  have h := c1_cursor_invariant_amended Action.moveDown 1 1 [36] 97
    Editor.initEditor Editor.initEditor NormalInputResult.rNone
  exact ⟨h.1, h.2.2.2.2.1 (by decide), h.2.2.2.2.2.1 (by decide),
    h.2.2.2.2.2.2.1 (by decide), h.2.2.2.2.2.2.2.1 (by decide),
    h.2.2.2.2.2.2.2.2.1 (by decide),
    h.2.2.2.2.2.2.2.2.2.1 (by decide) (by decide),
    h.2.2.2.2.2.2.2.2.2.2 (by decide)⟩

end Rune
